import Mathlib

/-!
# Verification of the bns hosts-file and resolv.conf configuration models

A shallow embedding of `lib/hosts.js` and `lib/resolvconf.js` from the
`bns` DNS library, together with proofs about the embedded operations.

Conventions of the embedding:

* JavaScript strings are Lean `String`s; character-level processing is done
  on `List Char` (a JS string is a sequence of code units; all inputs of
  interest here are plain text).
* JavaScript `Map`s are association lists with "update the existing key in
  place, otherwise append" insertion, mirroring `Map.prototype.set`.
* A method that can `throw` is embedded as a function returning
  `State × Option String`: the first component is the state of the object
  after the call returns or throws (JS exceptions do not roll back
  mutations already applied to `this`), the second is the thrown error
  message, `none` on normal return.
* Methods that only read state are embedded as plain functions.

External collaborators of the two source files (`./util`, `./encoding`,
the `binet` address library, the filesystem and the process environment)
are not part of the given sources; they are modelled from the spec and
marked as such in their doc comments.
-/

set_option autoImplicit false

namespace Bns

/-! ## Character-level text utilities (JS string primitives) -/

/-- The whitespace class used by JS `\s`, `String.prototype.trim` and the
`/\s+/` separators in the sources (ASCII part; the sources only ever meet
these after their own tab/newline normalization). -/
def isWsChar (c : Char) : Bool :=
  c = ' ' || c = '\t' || c = '\n' || c = '\r' || c = Char.ofNat 11 || c = Char.ofNat 12

/-- ASCII lower-casing of one character, as `String.prototype.toLowerCase`
acts on the ASCII range (the only range the config grammars care about). -/
def asciiLower (c : Char) : Char :=
  if 'A' ≤ c ∧ c ≤ 'Z' then Char.ofNat (c.toNat + 32) else c

/-- JS `toLowerCase` on a character list. -/
def lowerL (l : List Char) : List Char := l.map asciiLower

/-- JS `String.prototype.trim`: strip leading and trailing whitespace. -/
def trimL (l : List Char) : List Char :=
  ((l.dropWhile isWsChar).reverse.dropWhile isWsChar).reverse

/-- Split a character list at every character satisfying `p`
(single-character separators, keeping empty fields), the base for both
`split('\n')`-style and `/\s+/`-style splitting. -/
def splitOnPred (p : Char → Bool) : List Char → List (List Char)
  | [] => [[]]
  | c :: cs =>
    match splitOnPred p cs with
    | [] => if p c then [[], []] else [[c]]
    | t :: ts => if p c then [] :: t :: ts else (c :: t) :: ts

/-- JS `split(sep)` for a single separator character. -/
def splitOnCharL (sep : Char) (l : List Char) : List (List Char) :=
  splitOnPred (fun c => c = sep) l

/-- JS `split(/\s+/)`: separators are maximal whitespace runs, so interior
runs never produce empty fields, but leading/trailing whitespace yields a
leading/trailing empty field, and the empty string yields one empty field. -/
def splitWsL (l : List Char) : List (List Char) :=
  match l with
  | [] => [[]]
  | c :: cs =>
    let parts := (splitOnPred isWsChar (c :: cs)).filter (fun t => !t.isEmpty)
    (if isWsChar c then [([] : List Char)] else []) ++ parts ++
      (if isWsChar ((c :: cs).getLast?.getD c) then [([] : List Char)] else [])

/-- Split at the first occurrence of `sep`, as
`indexOf(sep)` + `substring(0, i)` / `substring(i + 1)`; `none` when `sep`
does not occur (`indexOf === -1`). -/
def splitFirstChar (sep : Char) : List Char → Option (List Char × List Char)
  | [] => none
  | c :: cs =>
    if c = sep then some ([], cs)
    else
      match splitFirstChar sep cs with
      | none => none
      | some (pre, post) => some (c :: pre, post)

/-- Does `l` end with the suffix `suf`? (JS `util.endsWith`.) -/
def endsWithL (l suf : List Char) : Bool :=
  decide (l.length ≥ suf.length) && decide (l.drop (l.length - suf.length) = suf)

/-! ## JS `Map` semantics over association lists -/

/-- `Map.prototype.get`. -/
def assocGet {β : Type} (m : List (String × β)) (k : String) : Option β :=
  match m with
  | [] => none
  | (k', v) :: rest => if k' = k then some v else assocGet rest k

/-- `Map.prototype.set`: update the first binding of `k` in place,
otherwise append a new binding. -/
def assocSet {β : Type} (m : List (String × β)) (k : String) (v : β) :
    List (String × β) :=
  match m with
  | [] => [(k, v)]
  | (k', v') :: rest =>
    if k' = k then (k', v) :: rest else (k', v') :: assocSet rest k v

/-! ## Modelled collaborators: name utilities (`./util`) -/

/-- Characters allowed inside a domain-name label in the modelled name
validator. -/
def isNameChar (c : Char) : Bool :=
  (decide ('a' ≤ c) && decide (c ≤ 'z')) ||
  (decide ('A' ≤ c) && decide (c ≤ 'Z')) ||
  (decide ('0' ≤ c) && decide (c ≤ '9')) ||
  c = '-' || c = '_'

/-- Modelled from the spec: `util.isName`, the "domain-name syntax
checking" collaborator (§1, §3: forward-map keys "pass name-syntax
validation"). A name is a dot-separated sequence of non-empty labels of at
most 63 label characters, at most 253 characters in all, optionally ending
with the root dot; the empty string is not a name. -/
def isNameL (l : List Char) : Bool :=
  let core := if l.getLast? = some '.' then l.dropLast else l
  !core.isEmpty && decide (core.length ≤ 253) &&
    (splitOnCharL '.' core).all
      (fun lab => !lab.isEmpty && decide (lab.length ≤ 63) && lab.all isNameChar)

/-- Modelled from the spec: `util.fqdn`, "FQDN normalization,
trailing-dot handling" (§1, glossary: a FQDN is "normalized with a
trailing separator denoting the root"): append the trailing dot when it
is absent. -/
def fqdnL (l : List Char) : List Char :=
  if l.getLast? = some '.' then l else l ++ ['.']

/-- Modelled from the spec: `util.parseU8`, the numeric argument parser
for option values (§4.2: "unparseable numeric arguments are ignored").
Accepts 1–3 decimal digits denoting a value at most 255. -/
def parseU8L (l : List Char) : Option Nat :=
  if l.isEmpty || decide (l.length > 3) || !(l.all Char.isDigit) then none
  else
    let n := l.foldl (fun a c => a * 10 + (c.toNat - '0'.toNat)) 0
    if decide (n ≤ 255) then some n else none

/-! ## Modelled collaborators: the address utility (`binet`) -/

/-- A parsed IP address: a dotted-quad IPv4 or a (lower-cased textual)
IPv6 address. Modelled from the spec: "string⇄binary IP parsing,
IPv4/IPv6 classification" (§1). -/
inductive IPAddr : Type
  | v4 (a b c d : Nat)
  | v6 (s : List Char)
deriving DecidableEq

/-- Parse a dotted-quad IPv4 address: exactly four 1–3 digit decimal
fields, each at most 255. -/
def parseIPv4L (l : List Char) : Option (Nat × Nat × Nat × Nat) :=
  match splitOnCharL '.' l with
  | [a, b, c, d] =>
    match parseU8L a, parseU8L b, parseU8L c, parseU8L d with
    | some x, some y, some z, some w => some (x, y, z, w)
    | _, _, _, _ => none
  | _ => none

def isHexChar (c : Char) : Bool :=
  c.isDigit || (decide ('a' ≤ c) && decide (c ≤ 'f')) ||
  (decide ('A' ≤ c) && decide (c ≤ 'F'))

/-- Modelled from the spec: `IP.toBuffer` / address classification —
parse a textual IP address or fail (the JS function throws on garbage).
IPv6 is modelled as "hex digits and at least one colon". -/
def toBufferL (l : List Char) : Option IPAddr :=
  match parseIPv4L l with
  | some (a, b, c, d) => some (.v4 a b c d)
  | none =>
    if l.contains ':' && l.all (fun c => isHexChar c || c = ':') && !l.isEmpty
    then some (.v6 (lowerL l)) else none

/-- Modelled from the spec: `IP.toString` — canonical textual form of a
parsed address. -/
def ipToStringL : IPAddr → List Char
  | .v4 a b c d =>
    (Nat.repr a).data ++ '.' :: (Nat.repr b).data ++ '.' :: (Nat.repr c).data
      ++ '.' :: (Nat.repr d).data
  | .v6 s => s

/-- Modelled from the spec: `IP.normalize` — parse then re-canonicalize,
failing on unparseable input (used by `setSort`). -/
def normalizeL (l : List Char) : Option (List Char) :=
  (toBufferL l).map ipToStringL

/-- Modelled from the spec: `encoding.reverse`, "reverse-DNS name
generation" (§1): derive the reverse-lookup key of a canonical textual
address (octets reversed under `.in-addr.arpa.` for IPv4; a
`.ip6.arpa.`-suffixed key for IPv6). -/
def reverseL (addr : List Char) : List Char :=
  match parseIPv4L addr with
  | some (a, b, c, d) =>
    (Nat.repr d).data ++ '.' :: (Nat.repr c).data ++ '.' :: (Nat.repr b).data
      ++ '.' :: (Nat.repr a).data ++ ".in-addr.arpa.".data
  | none => (addr.filter (fun c => c ≠ ':')) ++ ".ip6.arpa.".data

/-! ## Wire constants and record model (`lib/constants.js`, `lib/wire.js`)

The numeric type/class codes are taken from `lib/constants.js`; the
record shape mirrors the fields of `wire.Record` that `hosts.js`
populates (`name`, `class`, `ttl`, `type`, `data`). -/

namespace types

/-- `types.A` in `lib/constants.js`. -/
def A : Nat := 1
/-- `types.PTR` in `lib/constants.js`. -/
def PTR : Nat := 12
/-- `types.AAAA` in `lib/constants.js`. -/
def AAAA : Nat := 28
/-- `types.ANY` in `lib/constants.js`. -/
def ANY : Nat := 255

end types

namespace classes

/-- `classes.IN` in `lib/constants.js`. -/
def IN : Nat := 1

end classes

/-- The record data variants `hosts.js` constructs: `ARecord.address`,
`AAAARecord.address`, `PTRRecord.ptr` (the latter is assigned
`entry.name`, which is nullable in the raw `HostEntry`). -/
inductive RData : Type
  | a (address : String)
  | aaaa (address : String)
  | ptr (target : Option String)
deriving DecidableEq

/-- The fields of `wire.Record` populated by `Hosts.query`. -/
structure DnsRecord where
  name : String
  rclass : Nat
  ttl : Nat
  rtype : Nat
  data : RData
deriving DecidableEq

/-! ## `lib/hosts.js`: the hosts database -/

/-- `HostEntry` from `lib/hosts.js`: all four fields start out `null`. -/
structure HostEntry where
  name : Option String := none
  inet4 : Option String := none
  inet6 : Option String := none
  hostname : Option String := none
deriving DecidableEq

/-- `HostEntry.prototype.inject`: copy every field from `obj`. -/
def HostEntry.inject (_this obj : HostEntry) : HostEntry :=
  { name := obj.name, inet4 := obj.inet4, inet6 := obj.inet6,
    hostname := obj.hostname }

/-- `HostEntry.prototype.clone`: inject into a fresh entry. -/
def HostEntry.clone (e : HostEntry) : HostEntry :=
  HostEntry.inject {} e

/-- `Hosts` from `lib/hosts.js`: the forward map `map` from normalized
name to entry and the reverse map `rev` from reverse-lookup key to
forward name. -/
structure Hosts where
  map : List (String × HostEntry) := []
  rev : List (String × String) := []
deriving DecidableEq

namespace Hosts

/-- A freshly constructed `new Hosts()`. -/
def init : Hosts := {}

/-- `Hosts.prototype.clearHosts`: clear both maps. -/
def clearHosts (_this : Hosts) : Hosts := { map := [], rev := [] }

/-- `Hosts.prototype.inject`: clear, then copy the forward map
entry-by-entry through `HostEntry.clone` and the reverse map verbatim. -/
def inject (this obj : Hosts) : Hosts :=
  let cleared := this.clearHosts
  let m := obj.map.foldl (fun m kv => assocSet m kv.1 kv.2.clone) cleared.map
  let r := obj.rev.foldl (fun r kv => assocSet r kv.1 kv.2) cleared.rev
  { map := m, rev := r }

/-- `Hosts.prototype.clone`: inject into a fresh database. -/
def clone (db : Hosts) : Hosts := Hosts.inject {} db

/-- `Hosts.prototype.addHost(name, host, hostname = null)`.
Returns the post-call state and the thrown error message, if any. -/
def addHost (db : Hosts) (name host : String) (hostname : Option String) :
    Hosts × Option String :=
  let n1 := fqdnL (lowerL name.data)
  if ¬ isNameL n1 then (db, some "Invalid name.")
  else
    let n2 : String :=
      ⟨if endsWithL n1 ".localdomain.".data then n1.take (n1.length - 12) else n1⟩
    let hres : Option (Option String) :=
      match hostname with
      | none => some none
      | some h =>
        let h1 := fqdnL (lowerL h.data)
        if ¬ isNameL h1 then none else some (some ⟨h1⟩)
    match hres with
    | none => (db, some "Invalid hostname.")
    | some hn =>
      let entry := (assocGet db.map n2).getD {}
      match toBufferL host.data with
      | none => (db, some "Invalid address.")
      | some ip =>
        let addr : String := ⟨ipToStringL ip⟩
        let rv : String := ⟨reverseL addr.data⟩
        let entry' :=
          { entry with
            name := some n2
            inet4 := match ip with | .v4 .. => some addr | .v6 _ => entry.inet4
            inet6 := match ip with | .v4 .. => entry.inet6 | .v6 _ => some addr
            hostname := hn }
        ({ map := assocSet db.map n2 entry', rev := assocSet db.rev rv n2 }, none)

/-- `Hosts.prototype.setLocal`: clear, then bind `localhost` to both
loopback addresses. -/
def setLocal (db : Hosts) : Hosts :=
  let d1 := db.clearHosts
  let d2 := (d1.addHost "localhost" "127.0.0.1" none).1
  (d2.addHost "localhost" "::1" none).1

/-- `Hosts.prototype.setDefault` = `setLocal`. -/
def setDefault (db : Hosts) : Hosts := db.setLocal

/-- `Hosts.prototype.lookup`: case-fold the key, probe the reverse map
first (following its pointer into the forward map), else the forward
map. -/
def lookup (db : Hosts) (name : String) : Option HostEntry :=
  let key : String := ⟨lowerL name.data⟩
  match assocGet db.rev key with
  | some ptr => assocGet db.map ptr
  | none => assocGet db.map key

/-- `Hosts.prototype.query(name, type)`: `null` when the name is unknown,
otherwise synthesized records — one PTR bound to `entry.name`, or one
A/AAAA record per matching present family, all TTL 300 class IN. -/
def query (db : Hosts) (name : String) (ty : Nat) : Option (List DnsRecord) :=
  match db.lookup name with
  | none => none
  | some entry =>
    if ty = types.PTR then
      some [{ name := name, rclass := classes.IN, ttl := 300,
              rtype := types.PTR, data := .ptr entry.name }]
    else
      let a4 : List DnsRecord :=
        if ty = types.A ∨ ty = types.ANY then
          match entry.inet4 with
          | some ad => [{ name := name, rclass := classes.IN, ttl := 300,
                          rtype := types.A, data := .a ad }]
          | none => []
        else []
      let a6 : List DnsRecord :=
        if ty = types.AAAA ∨ ty = types.ANY then
          match entry.inet6 with
          | some ad => [{ name := name, rclass := classes.IN, ttl := 300,
                          rtype := types.AAAA, data := .aaaa ad }]
          | none => []
        else []
      some (a4 ++ a6)

/-- The text normalization shared by both `fromString` parsers: strip a
leading BOM, tabs to spaces, CRLF and CR to LF, drop
backslash-newline continuations. -/
def preprocessText (l : List Char) : List Char :=
  let l := match l with
    | c :: cs => if c = Char.ofNat 0xfeff then cs else c :: cs
    | [] => []
  removeCont (normNewlines (l.map (fun c => if c = '\t' then ' ' else c)))
where
  /-- `replace(/\r\n/g, '\n')` then `replace(/\r/g, '\n')`. -/
  normNewlines : List Char → List Char
    | [] => []
    | '\r' :: '\n' :: rest => '\n' :: normNewlines rest
    | '\r' :: rest => '\n' :: normNewlines rest
    | c :: rest => c :: normNewlines rest
  /-- `replace(/\\\n/g, '')`. -/
  removeCont : List Char → List Char
    | [] => []
    | '\\' :: '\n' :: rest => removeCont rest
    | c :: rest => c :: removeCont rest

/-- `addHost` with the per-name `try`/`catch` of `Hosts.fromString`:
a validation error skips this one name. -/
def addHostSafe (db : Hosts) (name ip : String) (hostname : Option String) :
    Hosts :=
  (db.addHost name ip hostname).1

/-- One non-empty, non-comment line of a hosts file: field 0 is the IP,
a line of more than two fields has its last field popped as the optional
canonical hostname, every remaining field is a name bound to the IP. -/
def hostsLine (db : Hosts) (chunk : List Char) : Hosts :=
  let line := trimL chunk
  match line with
  | [] => db
  | h :: _ =>
    if h = '#' ∨ h = ';' then db
    else
      let parts := splitWsL line
      match parts with
      | [] => db
      | ip :: rest =>
        let hostname : Option String :=
          if parts.length > 2 then (rest.getLast?).map (fun l => ⟨l⟩) else none
        let names := if parts.length > 2 then rest.dropLast else rest
        names.foldl (fun d n => d.addHostSafe ⟨n⟩ ⟨ip⟩ hostname) db

/-- `Hosts.prototype.fromString`: reset, normalize the text, lower-case
the whole buffer, then process every line. -/
def fromString (db : Hosts) (text : String) : Hosts :=
  let t := lowerL (preprocessText text.data)
  (splitOnCharL '\n' t).foldl hostsLine db.clearHosts

end Hosts

/-! ## `lib/resolvconf.js`: the resolver configuration -/

/-- The parsed form of one nameserver address, as produced by
`IP.fromHost`: family tag (`4`/`6`), canonical host, port, optional
authentication key. -/
structure ServerAddr where
  type : Nat
  hostname : String
  port : Nat
  key : Option String
deriving DecidableEq

/-- Modelled from the spec: `IP.fromHost`, the
"host:port[:key] address-string parsing" collaborator (§1): an optional
`key@` prefix followed by a textual IP address, classified by family;
unparseable hosts fail (the JS function throws). The port argument is the
default port the caller supplies. -/
def fromHostL (l : List Char) (port : Nat) : Option ServerAddr :=
  let (key?, hostPart) :=
    match splitFirstChar '@' l with
    | some (k, h) => (some (String.mk k), h)
    | none => (none, l)
  match toBufferL hostPart with
  | some ip =>
    some { type := match ip with | .v4 .. => 4 | .v6 _ => 6,
           hostname := ⟨ipToStringL ip⟩, port := port, key := key? }
  | none => none

/-- `LOCAL_NS` from `lib/resolvconf.js`. -/
def LOCAL_NS : List String := ["127.0.0.1", "::1"]

/-- `OPENDNS_NS` from `lib/resolvconf.js`. -/
def OPENDNS_NS : List String :=
  ["208.67.222.222", "208.67.220.220", "208.67.222.220", "208.67.220.222",
   "2620:0:ccc::2", "2620:0:ccd::2"]

/-- `GOOGLE_NS` from `lib/resolvconf.js`. -/
def GOOGLE_NS : List String :=
  ["8.8.8.8", "8.8.4.4", "2001:4860:4860::8888", "2001:4860:4860::8844"]

/-- `ResolvConf` from `lib/resolvconf.js`, with the constructor's initial
values as field defaults. -/
structure ResolvConf where
  ns4 : List ServerAddr := []
  ns6 : List ServerAddr := []
  keys : List (String × String) := []
  domain : Option String := none
  search : Option (List String) := none
  sortlist : List (String × Option String) := []
  debug : Bool := false
  dots : Nat := 1
  timeout : Nat := 5
  attempts : Nat := 2
  rotate : Bool := false
  checkNames : Bool := true
  inet6 : Bool := false
  byteString : Bool := false
  dotInt : Bool := false
  edns : Bool := false
  singleRequest : Bool := false
  singleRequestReopen : Bool := false
  tldQuery : Bool := true
  forceTCP : Bool := false
deriving DecidableEq

namespace ResolvConf

/-- A freshly constructed `new ResolvConf()`. -/
def init : ResolvConf := {}

/-- `ResolvConf.prototype.inject`: copy every field from `obj` (the two
server arrays and the sort list are copied with `slice()`, the key map is
rebuilt entry by entry). This functional embedding copies values; in the
source the assignment `this.search = obj.search` copies an array
*reference*, so the clone's `search` aliases the original's array — that
sharing is embedded explicitly in the `ResolvRef` model below, and this
value-level embedding is used only for field-reproduction facts. -/
def inject (_this obj : ResolvConf) : ResolvConf :=
  { ns4 := obj.ns4, ns6 := obj.ns6,
    keys := obj.keys.foldl (fun m kv => assocSet m kv.1 kv.2) [],
    domain := obj.domain, search := obj.search, sortlist := obj.sortlist,
    debug := obj.debug, dots := obj.dots, timeout := obj.timeout,
    attempts := obj.attempts, rotate := obj.rotate,
    checkNames := obj.checkNames, inet6 := obj.inet6,
    byteString := obj.byteString, dotInt := obj.dotInt, edns := obj.edns,
    singleRequest := obj.singleRequest,
    singleRequestReopen := obj.singleRequestReopen,
    tldQuery := obj.tldQuery, forceTCP := obj.forceTCP }

/-- `ResolvConf.prototype.clone`: inject into a fresh configuration. -/
def clone (c : ResolvConf) : ResolvConf := ResolvConf.inject {} c

/-- `ResolvConf.prototype.clear`: reset every field to its constructor
value. -/
def clear (_this : ResolvConf) : ResolvConf := {}

/-- `ResolvConf.prototype.getServers`: the IPv4 hostnames followed by the
IPv6 hostnames. -/
def getServers (c : ResolvConf) : List String :=
  c.ns4.map (·.hostname) ++ c.ns6.map (·.hostname)

/-- `ResolvConf.prototype.clearServers`. -/
def clearServers (c : ResolvConf) : ResolvConf :=
  { c with ns4 := [], ns6 := [], keys := [] }

/-- `ResolvConf.prototype.addServer`: parse via `IP.fromHost` with
default port 53, push onto the family's list, reject any other family;
record the authentication key when one is present. -/
def addServer (c : ResolvConf) (server : String) :
    ResolvConf × Option String :=
  match fromHostL server.data 53 with
  | none => (c, some "Invalid address.")
  | some addr =>
    let pushed : Option ResolvConf :=
      if addr.type = 4 then some { c with ns4 := c.ns4 ++ [addr] }
      else if addr.type = 6 then some { c with ns6 := c.ns6 ++ [addr] }
      else none
    match pushed with
    | none => (c, some "Invalid address.")
    | some c' =>
      match addr.key with
      | some k => ({ c' with keys := assocSet c'.keys addr.hostname k }, none)
      | none => (c', none)

/-- `ResolvConf.prototype.setServers`: clear all servers, then add each;
an invalid address aborts the loop with the error. -/
def setServers (c : ResolvConf) (servers : List String) :
    ResolvConf × Option String :=
  go c.clearServers servers
where
  go : ResolvConf → List String → ResolvConf × Option String
    | c, [] => (c, none)
    | c, s :: rest =>
      match c.addServer s with
      | (c', none) => go c' rest
      | (c', some e) => (c', some e)

/-- `ResolvConf.prototype.setLocal`. -/
def setLocal (c : ResolvConf) : ResolvConf × Option String :=
  c.setServers LOCAL_NS

/-- `ResolvConf.prototype.setGoogle`. -/
def setGoogle (c : ResolvConf) : ResolvConf × Option String :=
  c.setServers GOOGLE_NS

/-- `ResolvConf.prototype.setOpenDNS`. -/
def setOpenDNS (c : ResolvConf) : ResolvConf × Option String :=
  c.setServers OPENDNS_NS

/-- `ResolvConf.prototype.setDefault` = `setGoogle`. -/
def setDefault (c : ResolvConf) : ResolvConf × Option String :=
  c.setGoogle

/-- `ResolvConf.prototype.setDomain`: validate, then set `domain` to the
FQDN form and clear `search`. -/
def setDomain (c : ResolvConf) (domain : String) :
    ResolvConf × Option String :=
  if ¬ isNameL domain.data then (c, some "Invalid domain.")
  else ({ c with search := none, domain := some ⟨fqdnL domain.data⟩ }, none)

/-- The per-name loop of `setSearch`: skip invalid names, throw once six
names are already present, push the FQDN form. -/
def searchLoop : List (List Char) → ResolvConf → ResolvConf × Option String
  | [], c => (c, none)
  | n :: rest, c =>
    if ¬ isNameL n then searchLoop rest c
    else if (c.search.getD []).length = 6 then
      (c, some "Search list too large.")
    else
      searchLoop rest
        { c with search := some ((c.search.getD []) ++ [(⟨fqdnL n⟩ : String)]) }

/-- `ResolvConf.prototype.setSearch`: reject inputs longer than 256
characters up front, then split on whitespace, null out `domain`, start a
fresh `search` list and run the per-name loop. -/
def setSearch (c : ResolvConf) (list : String) : ResolvConf × Option String :=
  if list.data.length > 256 then (c, some "Search list too large.")
  else
    searchLoop (splitWsL list.data) { c with domain := none, search := some [] }

/-- The per-pair loop of `setSort`: split each pair at `/`, skip pairs
whose address or (non-empty) mask does not normalize, throw once ten
pairs are present, push `{ip, mask}`. -/
def sortLoop : List (List Char) → ResolvConf → ResolvConf × Option String
  | [], c => (c, none)
  | p :: rest, c =>
    let items := splitOnCharL '/' p
    let ip := items.headD []
    let mask : Option (List Char) := if items.length > 1 then items.get? 1 else none
    match normalizeL ip with
    | none => sortLoop rest c
    | some ipC =>
      let maskRes : Option (Option String) :=
        match mask with
        | none => some none
        | some m =>
          if m.isEmpty then some (some ⟨m⟩)
          else (normalizeL m).map (fun mc => some ⟨mc⟩)
      match maskRes with
      | none => sortLoop rest c
      | some maskC =>
        if c.sortlist.length = 10 then (c, some "Sort list too large.")
        else sortLoop rest { c with sortlist := c.sortlist ++ [(⟨ipC⟩, maskC)] }

/-- `ResolvConf.prototype.setSort`: split on whitespace and run the
per-pair loop (appending to the existing sort list). -/
def setSort (c : ResolvConf) (list : String) : ResolvConf × Option String :=
  sortLoop (splitWsL list.data) c

/-- `ResolvConf.prototype.parseServer`: trim, lower-case, delegate to
`addServer`, swallow any error. -/
def parseServer (c : ResolvConf) (text : String) : ResolvConf :=
  (c.addServer ⟨lowerL (trimL text.data)⟩).1

/-- `ResolvConf.prototype.parseDomain`: trim, lower-case, delegate to
`setDomain`, swallow any error. -/
def parseDomain (c : ResolvConf) (text : String) : ResolvConf :=
  (c.setDomain ⟨lowerL (trimL text.data)⟩).1

/-- `ResolvConf.prototype.parseSearch`: trim, lower-case, delegate to
`setSearch`, swallow any error. -/
def parseSearch (c : ResolvConf) (text : String) : ResolvConf :=
  (c.setSearch ⟨lowerL (trimL text.data)⟩).1

/-- `ResolvConf.prototype.parseSort`: trim, lower-case, delegate to
`setSort`, swallow any error. -/
def parseSort (c : ResolvConf) (text : String) : ResolvConf :=
  (c.setSort ⟨lowerL (trimL text.data)⟩).1

/-- One token of an options line. The `else` branch of the source binds
`name` to `arg`, and `arg` is still the empty string there, so a token
without a colon selects no switch case. A `ndots`/`timeout`/`attempts`
token whose argument does not parse leaves the field unchanged. -/
def optionStep (c : ResolvConf) (tok : List Char) : ResolvConf :=
  let na : List Char × List Char :=
    match splitFirstChar ':' tok with
    | some (pre, post) => (pre, post)
    | none => ([], [])
  let arg := na.2
  match (⟨na.1⟩ : String) with
  | "debug" => { c with debug := true }
  | "ndots" =>
    match parseU8L arg with
    | some n => { c with dots := min 15 n }
    | none => c
  | "timeout" =>
    match parseU8L arg with
    | some n => { c with timeout := min 30 n }
    | none => c
  | "attempts" =>
    match parseU8L arg with
    | some n => { c with attempts := min 5 n }
    | none => c
  | "rotate" => { c with rotate := true }
  | "no-check-names" => { c with checkNames := false }
  | "inet6" => { c with inet6 := true }
  | "ip6-bytestring" => { c with byteString := true }
  | "ip6-dotint" => { c with dotInt := true }
  | "no-ip6-dotint" => { c with dotInt := false }
  | "edns0" => { c with edns := true }
  | "single-request" => { c with singleRequest := true }
  | "single-request-reopen" => { c with singleRequestReopen := true }
  | "no-tld-query" => { c with tldQuery := false }
  | "use-vc" => { c with forceTCP := true }
  | _ => c

/-- `ResolvConf.prototype.parseOptions`: trim, lower-case, split on
whitespace, process every token. -/
def parseOptions (c : ResolvConf) (line : String) : ResolvConf :=
  (splitWsL (lowerL (trimL line.data))).foldl optionStep c

/-- One line of a resolv.conf file: trim, skip empty and comment lines
and lines without a space, split at the first space into the (lower-cased)
directive and the remainder, dispatch to the matching `parse*`. -/
def confLine (c : ResolvConf) (chunk : List Char) : ResolvConf :=
  let line := trimL chunk
  match line with
  | [] => c
  | h :: _ =>
    if h = '#' ∨ h = ';' then c
    else
      match splitFirstChar ' ' line with
      | none => c
      | some (opt, rest) =>
        let o := lowerL opt
        if o = "nameserver".data then c.parseServer ⟨rest⟩
        else if o = "domain".data then c.parseDomain ⟨rest⟩
        else if o = "search".data then c.parseSearch ⟨rest⟩
        else if o = "sortlist".data then c.parseSort ⟨rest⟩
        else if o = "options".data then c.parseOptions ⟨rest⟩
        else c

/-- `ResolvConf.prototype.fromString`: reset, normalize the text (no
global lower-casing here), then process every line. -/
def fromString (c : ResolvConf) (text : String) : ResolvConf :=
  let t := Hosts.preprocessText text.data
  (splitOnCharL '\n' t).foldl confLine c.clear

end ResolvConf

/-! ## The process environment and filesystem -/

/-- Modelled from the spec: the "filesystem read primitives and
OS/environment introspection" collaborators (§1): the platform flag
consulted by `getSystem`, the readable files (`none` means the read
throws), and the two environment variables `readEnv` consults. -/
structure SysEnv where
  win32 : Bool
  files : String → Option String
  localdomain : Option String
  resOptions : Option String

namespace ResolvConf

/-- `ResolvConf.prototype.getSystem`: no canonical path on win32,
`/etc/resolv.conf` elsewhere. -/
def getSystem (env : SysEnv) : Option String :=
  if env.win32 then none else some "/etc/resolv.conf"

/-- `ResolvConf.prototype.readEnv`: a non-empty `LOCALDOMAIN` is applied
as a domain directive, a non-empty `RES_OPTIONS` as an options line. -/
def readEnv (env : SysEnv) (c : ResolvConf) : ResolvConf :=
  let c1 :=
    match env.localdomain with
    | some s => if s.isEmpty then c else c.parseDomain s
    | none => c
  match env.resOptions with
  | some s => if s.isEmpty then c1 else c1.parseOptions s
  | none => c1

/-- `ResolvConf.prototype.fromFile` (read then parse); `none` when the
read throws. -/
def fromFile (env : SysEnv) (c : ResolvConf) (file : String) :
    Option ResolvConf :=
  (env.files file).map (fun text => c.fromString text)

/-- `ResolvConf.prototype.fromSystem`: load the canonical file when there
is one, fall back to `clear(); setDefault()` when there is none or the
load fails, and always apply `readEnv` afterwards. -/
def fromSystem (env : SysEnv) (c : ResolvConf) : ResolvConf :=
  let c1 :=
    match getSystem env with
    | some file =>
      match fromFile env c file with
      | some c' => c'
      | none => (c.clear.setDefault).1
    | none => (c.clear.setDefault).1
  readEnv env c1

/-- `ResolvConf.prototype.fromSystemAsync`: identical to `fromSystem` up
to the suspension on the file read. -/
def fromSystemAsync (env : SysEnv) (c : ResolvConf) : ResolvConf :=
  let c1 :=
    match getSystem env with
    | some file =>
      match fromFile env c file with
      | some c' => c'
      | none => (c.clear.setDefault).1
    | none => (c.clear.setDefault).1
  readEnv env c1

/-! ## The mutating public surface of `ResolvConf`

One constructor per state-changing public method (pure accessors like
`getServers` and `randomServer` do not change the object). `applyOp`
yields the object's state after the call, whether or not it threw. -/

inductive Op : Type
  | setServersOp (l : List String)
  | clearServersOp
  | setLocalOp
  | setGoogleOp
  | setOpenDNSOp
  | setDefaultOp
  | addServerOp (s : String)
  | setDomainOp (s : String)
  | setSearchOp (s : String)
  | setSortOp (s : String)
  | parseServerOp (s : String)
  | parseDomainOp (s : String)
  | parseSearchOp (s : String)
  | parseSortOp (s : String)
  | parseOptionsOp (s : String)
  | fromStringOp (t : String)
  | readEnvOp (e : SysEnv)
  | fromSystemOp (e : SysEnv)
  | fromSystemAsyncOp (e : SysEnv)
  | clearOp

def applyOp (c : ResolvConf) : Op → ResolvConf
  | .setServersOp l => (c.setServers l).1
  | .clearServersOp => c.clearServers
  | .setLocalOp => (c.setLocal).1
  | .setGoogleOp => (c.setGoogle).1
  | .setOpenDNSOp => (c.setOpenDNS).1
  | .setDefaultOp => (c.setDefault).1
  | .addServerOp s => (c.addServer s).1
  | .setDomainOp s => (c.setDomain s).1
  | .setSearchOp s => (c.setSearch s).1
  | .setSortOp s => (c.setSort s).1
  | .parseServerOp s => c.parseServer s
  | .parseDomainOp s => c.parseDomain s
  | .parseSearchOp s => c.parseSearch s
  | .parseSortOp s => c.parseSort s
  | .parseOptionsOp s => c.parseOptions s
  | .fromStringOp t => c.fromString t
  | .readEnvOp e => readEnv e c
  | .fromSystemOp e => fromSystem e c
  | .fromSystemAsyncOp e => fromSystemAsync e c
  | .clearOp => c.clear

/-- The `domain`/`search` mutual-exclusion invariant of the spec. -/
def excl (c : ResolvConf) : Prop := c.domain = none ∨ c.search = none

end ResolvConf

/-! ## `lib/hosts.js` under reference semantics

JavaScript `HostEntry` objects live on a shared heap and `Hosts.addHost`
mutates the entry it finds in the forward map *in place*, so whether
`clone()` is independent of the original depends on `inject` allocating
fresh entry objects (`value.clone()`) rather than sharing references.
This second embedding of the same source methods makes the heap explicit:
a store of entries, with forward-map values as store references. -/

namespace HostsRef

/-- The heap of `HostEntry` objects; a reference is an index into it. -/
abbrev Store := List HostEntry

/-- A `Hosts` object under reference semantics: its own two maps, the
forward map holding references into the shared store. -/
structure Obj where
  map : List (String × Nat) := []
  rev : List (String × String) := []
deriving DecidableEq

/-- The store references held by an object's forward map. -/
def Obj.refs (o : Obj) : List Nat := o.map.map (·.2)

/-- Every held reference points into the store. -/
def WF (st : Store) (o : Obj) : Prop := ∀ r ∈ o.refs, r < st.length

instance (st : Store) (o : Obj) : Decidable (WF st o) := by
  unfold WF; infer_instance

/-- `Hosts.prototype.addHost` with the heap explicit: the entry found in
the forward map is overwritten in place on the heap; a name not yet
present allocates a fresh entry. Returns the new heap, the new object
state, and the thrown error, if any. -/
def addHost (st : Store) (db : Obj) (name host : String)
    (hostname : Option String) : Store × Obj × Option String :=
  let n1 := fqdnL (lowerL name.data)
  if ¬ isNameL n1 then (st, db, some "Invalid name.")
  else
    let n2 : String :=
      ⟨if endsWithL n1 ".localdomain.".data then n1.take (n1.length - 12) else n1⟩
    let hres : Option (Option String) :=
      match hostname with
      | none => some none
      | some h =>
        let h1 := fqdnL (lowerL h.data)
        if ¬ isNameL h1 then none else some (some ⟨h1⟩)
    match hres with
    | none => (st, db, some "Invalid hostname.")
    | some hn =>
      match toBufferL host.data with
      | none => (st, db, some "Invalid address.")
      | some ip =>
        let addr : String := ⟨ipToStringL ip⟩
        let rv : String := ⟨reverseL addr.data⟩
        let update : HostEntry → HostEntry := fun entry =>
          { entry with
            name := some n2
            inet4 := match ip with | .v4 .. => some addr | .v6 _ => entry.inet4
            inet6 := match ip with | .v4 .. => entry.inet6 | .v6 _ => some addr
            hostname := hn }
        match assocGet db.map n2 with
        | some r =>
          (st.set r (update ((st.get? r).getD {})),
           { map := assocSet db.map n2 r, rev := assocSet db.rev rv n2 }, none)
        | none =>
          (st ++ [update {}],
           { map := assocSet db.map n2 st.length,
             rev := assocSet db.rev rv n2 }, none)

/-- `Hosts.prototype.lookup` with the heap explicit: the observable
result is the dereferenced entry value. -/
def lookup (st : Store) (db : Obj) (name : String) : Option HostEntry :=
  let key : String := ⟨lowerL name.data⟩
  match assocGet db.rev key with
  | some ptr => (assocGet db.map ptr).bind fun r => st.get? r
  | none => (assocGet db.map key).bind fun r => st.get? r

/-- One step of `inject`'s forward-map copy: `value.clone()` allocates a
fresh heap cell holding a copy of the source binding's dereferenced
entry, and the binding is `set` to point at it. -/
def injectFoldStep (st : Store) (acc : Store × List (String × Nat))
    (kv : String × Nat) : Store × List (String × Nat) :=
  (acc.1 ++ [(st.get? kv.2).getD {}], assocSet acc.2 kv.1 acc.1.length)

/-- `Hosts.prototype.inject` with the heap explicit: clear the object's
own maps, then rebuild the forward map with `value.clone()` — every
binding gets a freshly allocated entry holding a copy of the source's
dereferenced value — and copy the reverse map verbatim. -/
def inject (st : Store) (_this obj : Obj) : Store × Obj :=
  let stm := obj.map.foldl (injectFoldStep st) (st, [])
  let r := obj.rev.foldl (fun r kv => assocSet r kv.1 kv.2) []
  (stm.1, { map := stm.2, rev := r })

/-- `Hosts.prototype.clone` with the heap explicit. -/
def clone (st : Store) (obj : Obj) : Store × Obj := inject st {} obj

/-- A sequence of `addHost` calls (each with its `try`/`catch` swallowed,
as in `fromString`) applied to one object. -/
def applyMuts (st : Store) (db : Obj)
    (ms : List (String × String × Option String)) : Store × Obj :=
  ms.foldl
    (fun (acc : Store × Obj) m =>
      let r := addHost acc.1 acc.2 m.1 m.2.1 m.2.2
      (r.1, r.2.1))
    (st, db)

end HostsRef

/-! ## `lib/resolvconf.js` under reference semantics for `search`

`ResolvConf.prototype.inject` copies the `search` field with
`this.search = obj.search` (resolvconf.js:75): when `search` is an
array, the clone and the original share that array object. The
functional `ResolvConf` embedding above copies values and so cannot
express this sharing. This second embedding of the `search`-touching
methods makes the array heap explicit: `search` is `null` or a
reference into a store of string arrays; `setSearch` allocates a fresh
array (`this.search = []`) and pushes onto it in place; `inject` copies
the reference. The other owned containers (`ns4`, `ns6`, `keys`,
`sortlist`) are rebuilt or `slice()`d into fresh containers by `inject`
and are never mutated element-wise by any method, so they stay value
fields here. -/

namespace ResolvRef

/-- The heap of `search` array objects; a reference is an index. -/
abbrev SStore := List (List String)

/-- `ResolvConf` with `search` as an array reference. -/
structure Obj where
  ns4 : List ServerAddr := []
  ns6 : List ServerAddr := []
  keys : List (String × String) := []
  domain : Option String := none
  search : Option Nat := none
  sortlist : List (String × Option String) := []
  debug : Bool := false
  dots : Nat := 1
  timeout : Nat := 5
  attempts : Nat := 2
  rotate : Bool := false
  checkNames : Bool := true
  inet6 : Bool := false
  byteString : Bool := false
  dotInt : Bool := false
  edns : Bool := false
  singleRequest : Bool := false
  singleRequestReopen : Bool := false
  tldQuery : Bool := true
  forceTCP : Bool := false
deriving DecidableEq

/-- The observable value of the `search` field: `null`, or the contents
of the referenced array. -/
def searchVal (sst : SStore) (c : Obj) : Option (List String) :=
  c.search.map (fun r => (sst.get? r).getD [])

/-- `ResolvConf.prototype.inject` under reference semantics:
`this.search = obj.search` copies the *reference* — the clone's
`search` aliases the original's array. Every other field is copied as
in the functional embedding (`slice()` and the `Map` rebuild produce
fresh containers). -/
def inject (_this obj : Obj) : Obj :=
  { ns4 := obj.ns4, ns6 := obj.ns6,
    keys := obj.keys.foldl (fun m kv => assocSet m kv.1 kv.2) [],
    domain := obj.domain, search := obj.search, sortlist := obj.sortlist,
    debug := obj.debug, dots := obj.dots, timeout := obj.timeout,
    attempts := obj.attempts, rotate := obj.rotate,
    checkNames := obj.checkNames, inet6 := obj.inet6,
    byteString := obj.byteString, dotInt := obj.dotInt, edns := obj.edns,
    singleRequest := obj.singleRequest,
    singleRequestReopen := obj.singleRequestReopen,
    tldQuery := obj.tldQuery, forceTCP := obj.forceTCP }

/-- `ResolvConf.prototype.clone` under reference semantics. -/
def clone (c : Obj) : Obj := inject {} c

/-- `ResolvConf.prototype.setDomain` (does not touch the store: it only
drops the `search` reference). -/
def setDomain (c : Obj) (domain : String) : Obj × Option String :=
  if ¬ isNameL domain.data then (c, some "Invalid domain.")
  else ({ c with search := none, domain := some ⟨fqdnL domain.data⟩ }, none)

/-- The per-name loop of `setSearch` under reference semantics: each
`this.search.push(...)` writes the array at `ref` in place. -/
def searchLoop : List (List Char) → SStore → Nat → SStore × Option String
  | [], sst, _ => (sst, none)
  | n :: rest, sst, ref =>
    if ¬ isNameL n then searchLoop rest sst ref
    else if ((sst.get? ref).getD []).length = 6 then
      (sst, some "Search list too large.")
    else
      searchLoop rest
        (sst.set ref ((sst.get? ref).getD [] ++ [(⟨fqdnL n⟩ : String)])) ref

/-- `ResolvConf.prototype.setSearch` under reference semantics:
`this.search = []` allocates a *fresh* array at the top of the store
(it never writes through a previously held reference), then the loop
pushes onto that fresh array. -/
def setSearch (sst : SStore) (c : Obj) (list : String) :
    (SStore × Obj) × Option String :=
  if list.data.length > 256 then ((sst, c), some "Search list too large.")
  else
    let ref := sst.length
    let sst1 := sst ++ [([] : List String)]
    let c1 := { c with domain := none, search := some ref }
    let res := searchLoop (splitWsL list.data) sst1 ref
    ((res.1, c1), res.2)

/-- `ResolvConf.prototype.addServer` (identical to the functional
embedding; it never touches `search` or the store). -/
def addServer (c : Obj) (server : String) : Obj × Option String :=
  match fromHostL server.data 53 with
  | none => (c, some "Invalid address.")
  | some addr =>
    let pushed : Option Obj :=
      if addr.type = 4 then some { c with ns4 := c.ns4 ++ [addr] }
      else if addr.type = 6 then some { c with ns6 := c.ns6 ++ [addr] }
      else none
    match pushed with
    | none => (c, some "Invalid address.")
    | some c' =>
      match addr.key with
      | some k => ({ c' with keys := assocSet c'.keys addr.hostname k }, none)
      | none => (c', none)

/-- `ResolvConf.prototype.clear`: every field reset; the `search`
reference is dropped (`this.search = null`), the array itself is not
written. -/
def clear (_c : Obj) : Obj := {}

/-- The `search`-relevant mutating public operations of the claim. -/
inductive Op : Type
  | setDomainOp (s : String)
  | setSearchOp (s : String)
  | addServerOp (s : String)
  | clearOp

/-- Apply one public operation, threading the array store. -/
def applyOp (sst : SStore) (c : Obj) : Op → SStore × Obj
  | .setDomainOp s => (sst, (setDomain c s).1)
  | .setSearchOp s => (setSearch sst c s).1
  | .addServerOp s => (sst, (addServer c s).1)
  | .clearOp => (sst, clear c)

/-- Apply a sequence of public operations. -/
def applyOps (sst : SStore) (c : Obj) (ops : List Op) : SStore × Obj :=
  ops.foldl (fun acc op => applyOp acc.1 acc.2 op) (sst, c)

/-- Direct in-place mutation of the object's `search` collection, the
JS expression `c.search.push(v)` — not a public method, but exactly the
"direct mutation of a cloned collection" the clone claim quantifies
over. -/
def pushSearch (sst : SStore) (c : Obj) (v : String) : SStore :=
  match c.search with
  | some r => sst.set r ((sst.get? r).getD [] ++ [v])
  | none => sst

/-- The held `search` reference, if any, points into the store. -/
def WF (sst : SStore) (c : Obj) : Prop :=
  ∀ r, c.search = some r → r < sst.length

instance (sst : SStore) (c : Obj) : Decidable (WF sst c) :=
  decidable_of_iff (c.search.all (fun r => decide (r < sst.length)) = true)
    (by cases hs : c.search <;> simp [WF, Option.all, hs])

end ResolvRef

/-- A windows-like environment with `LOCALDOMAIN=test.` set, used to
instantiate the system-loader theorems. -/
def envWinTest : SysEnv :=
  { win32 := true, files := fun _ => none, localdomain := some "test.",
    resOptions := none }

/-- A unix-like environment whose resolv.conf read fails. -/
def envNoFile : SysEnv :=
  { win32 := false, files := fun _ => none, localdomain := none,
    resOptions := none }

/-! ## Shared helper lemmas -/

theorem splitFirstChar_append (sep : Char) (pre post : List Char)
    (h : sep ∉ pre) : splitFirstChar sep (pre ++ sep :: post) = some (pre, post) := by
  induction pre with
  | nil => simp [splitFirstChar]
  | cons c cs ih =>
    have hc : ¬ c = sep := fun hcs => h (hcs ▸ List.mem_cons_self c cs)
    have hcs : sep ∉ cs := fun hm => h (List.mem_cons_of_mem c hm)
    simp [splitFirstChar, hc, ih hcs]

theorem assocGet_mem {β : Type} {m : List (String × β)} {k : String} {v : β}
    (h : assocGet m k = some v) : (k, v) ∈ m := by
  induction m with
  | nil => simp [assocGet] at h
  | cons kv rest ih =>
    rw [assocGet] at h
    split at h
    · rename_i heq
      cases h
      simp_all [Prod.ext_iff]
    · exact List.mem_cons_of_mem _ (ih h)

theorem assocSet_append {β : Type} {m : List (String × β)} {k : String} {v : β}
    (h : ∀ kv ∈ m, kv.1 ≠ k) : assocSet m k v = m ++ [(k, v)] := by
  induction m with
  | nil => simp [assocSet]
  | cons kv rest ih =>
    have h1 : kv.1 ≠ k := h kv (List.mem_cons_self _ _)
    rw [assocSet]
    simp only [h1, if_false]
    rw [ih (fun kv' hm => h kv' (List.mem_cons_of_mem _ hm))]
    simp

theorem assocGet_append {β : Type} (a b : List (String × β)) (k : String) :
    assocGet (a ++ b) k =
      match assocGet a k with
      | some v => some v
      | none => assocGet b k := by
  induction a with
  | nil => simp [assocGet]
  | cons kv rest ih =>
    rw [List.cons_append, assocGet, assocGet]
    split
    · rfl
    · exact ih

/-- Rebuilding an association list whose keys are distinct by `set`ting
every binding into an accumulator with disjoint keys appends it
verbatim (the JS `Map` copy idiom of `inject`). -/
theorem assoc_rebuild {β : Type} (l : List (String × β)) :
    ∀ acc : List (String × β),
      l.Pairwise (fun a b => a.1 ≠ b.1) →
      (∀ kv ∈ acc, ∀ kv' ∈ l, kv.1 ≠ kv'.1) →
      l.foldl (fun m kv => assocSet m kv.1 kv.2) acc = acc ++ l := by
  induction l with
  | nil => simp
  | cons kv rest ih =>
    intro acc hnd hdisj
    rw [List.foldl_cons]
    rw [assocSet_append (fun kv' hm => hdisj kv' hm kv (List.mem_cons_self _ _))]
    rw [ih (acc ++ [(kv.1, kv.2)]) (List.Pairwise.of_cons hnd)]
    · simp
    · intro kv' hm kv'' hm''
      rcases List.mem_append.1 hm with hl | hr
      · exact hdisj kv' hl kv'' (List.mem_cons_of_mem _ hm'')
      · simp only [List.mem_singleton] at hr
        subst hr
        exact (List.pairwise_cons.1 hnd).1 kv'' hm''

theorem ResolvConf.set_search_self (c : ResolvConf) (x : Option (List String))
    (h : c.search = x) : { c with search := x } = c := by
  cases c; simp_all

/-- The per-name loop of `setSearch`, when the six-name capacity is not
exhausted: every valid name is FQDN-normalized and appended in order. -/
theorem searchLoop_ok (ns : List (List Char)) : ∀ (c : ResolvConf) (cur : List String),
    c.search = some cur →
    cur.length + (ns.filter isNameL).length ≤ 6 →
    ResolvConf.searchLoop ns c =
      ({ c with search := (some
          (cur ++ (ns.filter isNameL).map (fun t => (⟨fqdnL t⟩ : String)))) }, none) := by
  induction ns with
  | nil =>
    intro c cur hc hlen
    have h1 : ResolvConf.searchLoop [] c = (c, none) := rfl
    rw [h1, List.filter_nil, List.map_nil, List.append_nil,
      ResolvConf.set_search_self c _ hc]
  | cons n rest ih =>
    intro c cur hc hlen
    rw [ResolvConf.searchLoop]
    by_cases hn : isNameL n
    · have hfil : List.filter isNameL (n :: rest) = n :: List.filter isNameL rest := by
        simp [hn]
      rw [hfil] at hlen ⊢
      simp only [hn, not_true_eq_false, if_false]
      have hcur : (c.search.getD []).length = cur.length := by rw [hc]; rfl
      have hlt : cur.length < 6 := by
        simp only [List.length_cons] at hlen; omega
      rw [if_neg (by omega : ¬ (c.search.getD []).length = 6)]
      rw [hc, Option.getD_some]
      have hrec := ih { c with search := some (cur ++ [(⟨fqdnL n⟩ : String)]) }
        (cur ++ [(⟨fqdnL n⟩ : String)]) rfl
        (by simp only [List.length_append, List.length_cons, List.length_nil]
              at hlen ⊢
            omega)
      rw [hrec]
      simp
    · have hfil : List.filter isNameL (n :: rest) = List.filter isNameL rest := by
        simp [hn]
      rw [hfil] at hlen ⊢
      simp only [hn, not_false_eq_true, if_true]
      exact ih c cur hc hlen

/-- The per-name loop of `setSearch`, when a seventh valid name arrives:
the loop throws with exactly six normalized names stored. -/
theorem searchLoop_err (ns : List (List Char)) : ∀ (c : ResolvConf) (cur : List String),
    c.search = some cur →
    cur.length ≤ 6 →
    6 < cur.length + (ns.filter isNameL).length →
    ResolvConf.searchLoop ns c =
      ({ c with search := (some
          (cur ++ ((ns.filter isNameL).take (6 - cur.length)).map
            (fun t => (⟨fqdnL t⟩ : String)))) },
       some "Search list too large.") := by
  induction ns with
  | nil =>
    intro c cur hc hle hgt
    simp at hgt
    omega
  | cons n rest ih =>
    intro c cur hc hle hgt
    rw [ResolvConf.searchLoop]
    by_cases hn : isNameL n
    · have hfil : List.filter isNameL (n :: rest) = n :: List.filter isNameL rest := by
        simp [hn]
      rw [hfil] at hgt ⊢
      simp only [hn, not_true_eq_false, if_false]
      have hcur : (c.search.getD []).length = cur.length := by rw [hc]; rfl
      by_cases h6 : cur.length = 6
      · rw [if_pos (by omega)]
        rw [h6]
        simp only [Nat.sub_self, List.take_zero, List.map_nil, List.append_nil]
        rw [ResolvConf.set_search_self c _ hc]
      · rw [if_neg (by omega)]
        rw [hc, Option.getD_some]
        have hrec := ih { c with search := some (cur ++ [(⟨fqdnL n⟩ : String)]) }
          (cur ++ [(⟨fqdnL n⟩ : String)]) rfl
          (by simp only [List.length_append, List.length_cons, List.length_nil]
              omega)
          (by simp only [List.length_append, List.length_cons, List.length_nil]
                at hgt ⊢
              omega)
        rw [hrec]
        have harith : 6 - cur.length = (6 - (cur.length + 1)) + 1 := by omega
        rw [harith, List.take_succ_cons, List.map_cons]
        simp
    · have hfil : List.filter isNameL (n :: rest) = List.filter isNameL rest := by
        simp [hn]
      rw [hfil] at hgt ⊢
      simp only [hn, not_false_eq_true, if_true]
      exact ih c cur hc hle hgt

/-- `addServer` never writes `domain` or `search`. -/
theorem addServer_ds (c : ResolvConf) (s : String) :
    (c.addServer s).1.domain = c.domain ∧ (c.addServer s).1.search = c.search := by
  cases hf : fromHostL s.data 53 with
  | none => simp [ResolvConf.addServer, hf]
  | some addr =>
    by_cases h4 : addr.type = 4
    · cases hk : addr.key <;> simp [ResolvConf.addServer, hf, h4, hk]
    · by_cases h6 : addr.type = 6
      · cases hk : addr.key <;> simp [ResolvConf.addServer, hf, h4, h6, hk]
      · simp [ResolvConf.addServer, hf, h4, h6]

/-- A single option token never writes `domain` or `search`. -/
theorem optionStep_ds (c : ResolvConf) (tok : List Char) :
    (ResolvConf.optionStep c tok).domain = c.domain ∧
    (ResolvConf.optionStep c tok).search = c.search := by
  rw [ResolvConf.optionStep]
  split
  all_goals first | exact ⟨rfl, rfl⟩ | (split <;> exact ⟨rfl, rfl⟩)

theorem setServersGo_ds : ∀ (ss : List String) (c : ResolvConf),
    (ResolvConf.setServers.go c ss).1.domain = c.domain ∧
    (ResolvConf.setServers.go c ss).1.search = c.search := by
  intro ss
  induction ss with
  | nil => exact fun c => ⟨rfl, rfl⟩
  | cons s rest ih =>
    intro c
    rw [ResolvConf.setServers.go]
    rcases h : c.addServer s with ⟨c', e⟩
    have h1 := addServer_ds c s
    rw [h] at h1
    cases e with
    | none =>
      simp only [h]
      exact ⟨(ih c').1.trans h1.1, (ih c').2.trans h1.2⟩
    | some e =>
      simp only [h]
      exact h1

theorem setServers_ds (c : ResolvConf) (ss : List String) :
    (c.setServers ss).1.domain = c.domain ∧
    (c.setServers ss).1.search = c.search :=
  ⟨(setServersGo_ds ss c.clearServers).1.trans rfl,
   (setServersGo_ds ss c.clearServers).2.trans rfl⟩

theorem sortLoop_ds : ∀ (ps : List (List Char)) (c : ResolvConf),
    (ResolvConf.sortLoop ps c).1.domain = c.domain ∧
    (ResolvConf.sortLoop ps c).1.search = c.search := by
  intro ps
  induction ps with
  | nil => exact fun c => ⟨rfl, rfl⟩
  | cons p rest ih =>
    intro c
    rw [ResolvConf.sortLoop]
    dsimp only
    repeat' split
    all_goals first
      | exact ⟨rfl, rfl⟩
      | exact ih c
      | exact ⟨(ih _).1, (ih _).2⟩

theorem searchLoop_domain : ∀ (ns : List (List Char)) (c : ResolvConf),
    (ResolvConf.searchLoop ns c).1.domain = c.domain := by
  intro ns
  induction ns with
  | nil => exact fun c => rfl
  | cons n rest ih =>
    intro c
    rw [ResolvConf.searchLoop]
    split
    · exact ih c
    · split
      · rfl
      · exact ih _

theorem foldlOptionStep_ds : ∀ (toks : List (List Char)) (c : ResolvConf),
    (toks.foldl ResolvConf.optionStep c).domain = c.domain ∧
    (toks.foldl ResolvConf.optionStep c).search = c.search := by
  intro toks
  induction toks with
  | nil => exact fun c => ⟨rfl, rfl⟩
  | cons t rest ih =>
    intro c
    rw [List.foldl_cons]
    exact ⟨(ih _).1.trans (optionStep_ds c t).1, (ih _).2.trans (optionStep_ds c t).2⟩

theorem excl_of_ds {c c' : ResolvConf} (hd : c'.domain = c.domain)
    (hs : c'.search = c.search) (h : ResolvConf.excl c) : ResolvConf.excl c' := by
  rcases h with h | h
  · exact Or.inl (hd.trans h)
  · exact Or.inr (hs.trans h)

theorem setDomain_excl (c : ResolvConf) (s : String) (h : ResolvConf.excl c) :
    ResolvConf.excl (c.setDomain s).1 := by
  rw [ResolvConf.setDomain]
  split
  · exact h
  · exact Or.inr rfl

theorem setSearch_fst_domain (c : ResolvConf) (s : String)
    (hl : s.data.length ≤ 256) : (c.setSearch s).1.domain = none := by
  rw [ResolvConf.setSearch, if_neg (by omega)]
  exact (searchLoop_domain _ _).trans rfl

theorem setSearch_excl (c : ResolvConf) (s : String) (h : ResolvConf.excl c) :
    ResolvConf.excl (c.setSearch s).1 := by
  by_cases hl : s.data.length > 256
  · rw [ResolvConf.setSearch, if_pos hl]
    exact h
  · exact Or.inl (setSearch_fst_domain c s (by omega))

theorem confLine_excl (c : ResolvConf) (chunk : List Char)
    (h : ResolvConf.excl c) : ResolvConf.excl (ResolvConf.confLine c chunk) := by
  rw [ResolvConf.confLine]
  split
  · exact h
  · split
    · exact h
    · split
      · exact h
      · next opt rest heq =>
        show ResolvConf.excl
          (if lowerL opt = "nameserver".data then c.parseServer ⟨rest⟩
           else if lowerL opt = "domain".data then c.parseDomain ⟨rest⟩
           else if lowerL opt = "search".data then c.parseSearch ⟨rest⟩
           else if lowerL opt = "sortlist".data then c.parseSort ⟨rest⟩
           else if lowerL opt = "options".data then c.parseOptions ⟨rest⟩
           else c)
        split_ifs
        · exact excl_of_ds (addServer_ds _ _).1 (addServer_ds _ _).2 h
        · exact setDomain_excl _ _ h
        · exact setSearch_excl _ _ h
        · exact excl_of_ds (sortLoop_ds _ _).1 (sortLoop_ds _ _).2 h
        · exact excl_of_ds (foldlOptionStep_ds _ _).1 (foldlOptionStep_ds _ _).2 h
        · exact h

theorem foldlConfLine_excl : ∀ (lines : List (List Char)) (c : ResolvConf),
    ResolvConf.excl c → ResolvConf.excl (lines.foldl ResolvConf.confLine c) := by
  intro lines
  induction lines with
  | nil => exact fun c h => h
  | cons l rest ih =>
    intro c h
    rw [List.foldl_cons]
    exact ih _ (confLine_excl c l h)

theorem fromString_excl (c : ResolvConf) (t : String) :
    ResolvConf.excl (c.fromString t) :=
  foldlConfLine_excl _ _ (Or.inl rfl)

theorem readEnv_excl (env : SysEnv) (c : ResolvConf) (h : ResolvConf.excl c) :
    ResolvConf.excl (ResolvConf.readEnv env c) := by
  rw [ResolvConf.readEnv]
  have h1 : ResolvConf.excl
      (match env.localdomain with
       | some s => if s.isEmpty then c else c.parseDomain s
       | none => c) := by
    split
    · split
      · exact h
      · exact setDomain_excl _ _ h
    · exact h
  split
  · split
    · exact h1
    · exact excl_of_ds (foldlOptionStep_ds _ _).1 (foldlOptionStep_ds _ _).2 h1
  · exact h1

theorem clearDefault_excl (c : ResolvConf) :
    ResolvConf.excl ((c.clear.setDefault)).1 :=
  Or.inl ((setServers_ds _ _).1.trans rfl)

theorem fromSystem_excl (env : SysEnv) (c : ResolvConf) :
    ResolvConf.excl (ResolvConf.fromSystem env c) := by
  rw [ResolvConf.fromSystem]
  apply readEnv_excl
  split
  · split
    · rename_i heq
      rw [ResolvConf.fromFile, Option.map_eq_some'] at heq
      obtain ⟨text, -, rfl⟩ := heq
      exact fromString_excl c text
    · exact clearDefault_excl c
  · exact clearDefault_excl c

theorem fromSystemAsync_eq_fromSystem (env : SysEnv) (c : ResolvConf) :
    ResolvConf.fromSystemAsync env c = ResolvConf.fromSystem env c := rfl

theorem applyOp_excl (c : ResolvConf) (op : ResolvConf.Op)
    (h : ResolvConf.excl c) : ResolvConf.excl (ResolvConf.applyOp c op) := by
  cases op with
  | setServersOp l => exact excl_of_ds (setServers_ds c l).1 (setServers_ds c l).2 h
  | clearServersOp => exact excl_of_ds rfl rfl h
  | setLocalOp => exact excl_of_ds (setServers_ds c _).1 (setServers_ds c _).2 h
  | setGoogleOp => exact excl_of_ds (setServers_ds c _).1 (setServers_ds c _).2 h
  | setOpenDNSOp => exact excl_of_ds (setServers_ds c _).1 (setServers_ds c _).2 h
  | setDefaultOp => exact excl_of_ds (setServers_ds c _).1 (setServers_ds c _).2 h
  | addServerOp s => exact excl_of_ds (addServer_ds c s).1 (addServer_ds c s).2 h
  | setDomainOp s => exact setDomain_excl c s h
  | setSearchOp s => exact setSearch_excl c s h
  | setSortOp s => exact excl_of_ds (sortLoop_ds _ c).1 (sortLoop_ds _ c).2 h
  | parseServerOp s => exact excl_of_ds (addServer_ds c _).1 (addServer_ds c _).2 h
  | parseDomainOp s => exact setDomain_excl c _ h
  | parseSearchOp s => exact setSearch_excl c _ h
  | parseSortOp s => exact excl_of_ds (sortLoop_ds _ c).1 (sortLoop_ds _ c).2 h
  | parseOptionsOp s =>
    exact excl_of_ds (foldlOptionStep_ds _ c).1 (foldlOptionStep_ds _ c).2 h
  | fromStringOp t => exact fromString_excl c t
  | readEnvOp e => exact readEnv_excl e c h
  | fromSystemOp e => exact fromSystem_excl e c
  | fromSystemAsyncOp e =>
    show ResolvConf.excl (ResolvConf.fromSystemAsync e c)
    rw [fromSystemAsync_eq_fromSystem]
    exact fromSystem_excl e c
  | clearOp => exact Or.inl rfl

/-! ## The claims -/

/-- C1 — code bug. The spec's option table says each bare recognized flag
(`debug`, `rotate`, `no-check-names`, `inet6`, `ip6-bytestring`,
`ip6-dotint`, `no-ip6-dotint`, `edns0`, `single-request`,
`single-request-reopen`, `no-tld-query`, `use-vc`) sets its boolean
field, but the source's no-colon branch binds `name` to the still-empty
`arg` instead of to the token, so no switch case can ever match a bare
flag: an options line of all twelve bare flags leaves the fresh
configuration completely unchanged, and only the colon form (for
example `rotate:`) reaches a flag's case. -/
theorem claim_C1 :
    ResolvConf.parseOptions ResolvConf.init
        "debug rotate no-check-names inet6 ip6-bytestring ip6-dotint no-ip6-dotint edns0 single-request single-request-reopen no-tld-query use-vc"
      = ResolvConf.init ∧
    (ResolvConf.parseOptions ResolvConf.init "rotate").rotate = false ∧
    (ResolvConf.parseOptions ResolvConf.init "rotate:").rotate = true := by
  decide

/-- C7 — for any option token with a colon: `ndots:N` sets
`dots = min(N, 15)`, `timeout:N` sets `timeout = min(N, 30)` and
`attempts:N` sets `attempts = min(N, 5)` for every `N` the numeric parser
accepts; an unparseable numeric argument leaves the field unchanged;
`parseOptions` is the fold of the token step over the whitespace-split
line, so subsequent tokens are still processed; and concretely
`parseOptions('ndots:20 attempts:9')` yields `dots = 15` and
`attempts = 5`. -/
theorem claim_C7 :
    (∀ (c : ResolvConf) (a : List Char) (n : Nat), parseU8L a = some n →
      ResolvConf.optionStep c ("ndots".data ++ ':' :: a) = { c with dots := min 15 n }) ∧
    (∀ (c : ResolvConf) (a : List Char) (n : Nat), parseU8L a = some n →
      ResolvConf.optionStep c ("timeout".data ++ ':' :: a) = { c with timeout := min 30 n }) ∧
    (∀ (c : ResolvConf) (a : List Char) (n : Nat), parseU8L a = some n →
      ResolvConf.optionStep c ("attempts".data ++ ':' :: a) = { c with attempts := min 5 n }) ∧
    (∀ (c : ResolvConf) (a : List Char), parseU8L a = none →
      ResolvConf.optionStep c ("ndots".data ++ ':' :: a) = c ∧
      ResolvConf.optionStep c ("timeout".data ++ ':' :: a) = c ∧
      ResolvConf.optionStep c ("attempts".data ++ ':' :: a) = c) ∧
    (∀ (c : ResolvConf) (line : String),
      ResolvConf.parseOptions c line =
        (splitWsL (lowerL (trimL line.data))).foldl ResolvConf.optionStep c) ∧
    ((ResolvConf.parseOptions ResolvConf.init "ndots:20 attempts:9").dots = 15 ∧
     (ResolvConf.parseOptions ResolvConf.init "ndots:20 attempts:9").attempts = 5) := by
  refine ⟨?_, ?_, ?_, ?_, fun c line => rfl, by decide, by decide⟩
  · intro c a n h
    rw [ResolvConf.optionStep, splitFirstChar_append ':' _ _ (by decide)]
    simp +decide [h]
  · intro c a n h
    rw [ResolvConf.optionStep, splitFirstChar_append ':' _ _ (by decide)]
    simp +decide [h]
  · intro c a n h
    rw [ResolvConf.optionStep, splitFirstChar_append ':' _ _ (by decide)]
    simp +decide [h]
  · intro c a h
    refine ⟨?_, ?_, ?_⟩ <;>
      · rw [ResolvConf.optionStep, splitFirstChar_append ':' _ _ (by decide)]
        simp +decide [h]

theorem claim_C7_witness :
    parseU8L "20".data = some 20 ∧
    ResolvConf.optionStep ResolvConf.init ("ndots".data ++ ':' :: "20".data) =
      { ResolvConf.init with dots := min 15 20 } :=
  ⟨by decide, claim_C7.1 ResolvConf.init "20".data 20 (by decide)⟩

/-- C6 — amended: for every input of length at most 256 (longer inputs
are rejected up front by the length guard, see C10), `setSearch` splits
on whitespace, silently drops every token failing name validation,
FQDN-normalizes the valid tokens in input order, succeeds when at most
six are valid (six included), and raises `Search list too large.` when
seven or more are valid. -/
theorem claim_C6 (c : ResolvConf) (l : String) (hlen : l.data.length ≤ 256) :
    (((splitWsL l.data).filter isNameL).length ≤ 6 →
      c.setSearch l = ({ c with domain := none, search := (some
        (((splitWsL l.data).filter isNameL).map (fun t => (⟨fqdnL t⟩ : String)))) }, none)) ∧
    (7 ≤ ((splitWsL l.data).filter isNameL).length →
      (c.setSearch l).2 = some "Search list too large.") := by
  constructor
  · intro hcount
    rw [ResolvConf.setSearch, if_neg (by omega)]
    rw [searchLoop_ok _ _ [] rfl (by simpa using hcount)]
    simp
  · intro hcount
    rw [ResolvConf.setSearch, if_neg (by omega)]
    rw [searchLoop_err _ _ [] rfl (by simp) (by simpa using hcount)]

set_option maxRecDepth 40000 in
/-- C6 — counterexample to the claim as stated ("for every input
string"): an input of 257 characters containing exactly six valid names
does not succeed — the up-front length guard raises
`Search list too large.` without touching the state. -/
theorem claim_C6_cex :
    ((splitWsL (String.mk ("a b c d e f".data ++ List.replicate 246 ' ')).data).filter
        isNameL).length = 6 ∧
    (ResolvConf.init.setSearch
        (String.mk ("a b c d e f".data ++ List.replicate 246 ' '))).2
      = some "Search list too large." ∧
    (ResolvConf.init.setSearch
        (String.mk ("a b c d e f".data ++ List.replicate 246 ' '))).1
      = ResolvConf.init := by
  decide

theorem claim_C6_witness :
    "a b c".data.length ≤ 256 ∧
    ((splitWsL "a b c".data).filter isNameL).length ≤ 6 ∧
    ResolvConf.init.setSearch "a b c" =
      ({ ResolvConf.init with domain := none, search := (some
        (((splitWsL "a b c".data).filter isNameL).map (fun t => (⟨fqdnL t⟩ : String)))) },
       none) :=
  ⟨by decide, by decide, (claim_C6 ResolvConf.init "a b c" (by decide)).1 (by decide)⟩

/-- C10 — `setSearch` is not atomic on failure: an input of at most 256
characters with more than six valid names raises
`Search list too large.` with `domain` already nulled and `search`
holding the first six normalized names; an input longer than 256
characters is rejected before any token is examined, leaving the state
unchanged. -/
theorem claim_C10 (c : ResolvConf) (l : String) :
    (256 < l.data.length → c.setSearch l = (c, some "Search list too large.")) ∧
    (l.data.length ≤ 256 → 6 < ((splitWsL l.data).filter isNameL).length →
      c.setSearch l =
        ({ c with domain := none, search := (some
          ((((splitWsL l.data).filter isNameL).take 6).map
            (fun t => (⟨fqdnL t⟩ : String)))) },
         some "Search list too large.")) := by
  constructor
  · intro hlen
    rw [ResolvConf.setSearch, if_pos (by omega)]
  · intro hlen hcount
    rw [ResolvConf.setSearch, if_neg (by omega)]
    rw [searchLoop_err _ _ [] rfl (by simp) (by simpa using hcount)]
    simp

set_option maxRecDepth 40000 in
theorem claim_C10_witness :
    (256 < (String.mk (List.replicate 257 'a')).data.length ∧
      ResolvConf.init.setSearch (String.mk (List.replicate 257 'a')) =
        (ResolvConf.init, some "Search list too large.")) ∧
    ("a b c d e f g".data.length ≤ 256 ∧
      6 < ((splitWsL "a b c d e f g".data).filter isNameL).length ∧
      ResolvConf.init.setSearch "a b c d e f g" =
        ({ ResolvConf.init with domain := none, search := (some
          ((((splitWsL "a b c d e f g".data).filter isNameL).take 6).map
            (fun t => (⟨fqdnL t⟩ : String)))) },
         some "Search list too large.")) :=
  ⟨⟨by decide, (claim_C10 ResolvConf.init _).1 (by decide)⟩,
   ⟨by decide, by decide, (claim_C10 ResolvConf.init _).2 (by decide) (by decide)⟩⟩

/-- C3 — amended: along every sequence of public operations starting
from a fresh configuration, `domain` and `search` are never both
non-null; a successful `setDomain` leaves `search` null; a `setSearch`
call whose argument passes the 256-character length guard leaves
`domain` null (also when it then fails on the six-name limit); a
`setSearch` call rejected by the length guard leaves the object
unchanged — so it does not null out a previously set `domain`. -/
theorem claim_C3 :
    (∀ (c : ResolvConf) (op : ResolvConf.Op),
      ResolvConf.excl c → ResolvConf.excl (ResolvConf.applyOp c op)) ∧
    (∀ ops : List ResolvConf.Op,
      ResolvConf.excl (ops.foldl ResolvConf.applyOp ResolvConf.init)) ∧
    (∀ (c : ResolvConf) (s : String),
      (c.setDomain s).2 = none → (c.setDomain s).1.search = none) ∧
    (∀ (c : ResolvConf) (s : String),
      s.data.length ≤ 256 → (c.setSearch s).1.domain = none) ∧
    (∀ (c : ResolvConf) (s : String),
      256 < s.data.length → c.setSearch s = (c, some "Search list too large.")) := by
  refine ⟨applyOp_excl, ?_, ?_, setSearch_fst_domain, ?_⟩
  · have hfold : ∀ (ops : List ResolvConf.Op) (c : ResolvConf), ResolvConf.excl c →
        ResolvConf.excl (ops.foldl ResolvConf.applyOp c) := by
      intro ops
      induction ops with
      | nil => exact fun c h => h
      | cons op rest ih =>
        intro c h
        rw [List.foldl_cons]
        exact ih _ (applyOp_excl c op h)
    exact fun ops => hfold ops ResolvConf.init (Or.inl rfl)
  · intro c s h
    by_cases hn : isNameL s.data
    · rw [ResolvConf.setDomain, if_neg (by simp [hn])]
    · rw [ResolvConf.setDomain, if_pos (by simp [hn])] at h
      exact absurd h (by simp)
  · intro c s h
    rw [ResolvConf.setSearch, if_pos (by omega)]

set_option maxRecDepth 40000 in
/-- C3 — counterexample to the claim as stated: a `setSearch` call
rejected by the 256-character length guard does *not* leave `domain`
null — after a successful `setDomain`, the failed call leaves `domain`
set (the exclusion invariant itself still holds, since `search` stays
null). -/
theorem claim_C3_cex :
    ((ResolvConf.init.setDomain "example").1.setSearch
        (String.mk (List.replicate 257 'a'))).1.domain = some "example." ∧
    ((ResolvConf.init.setDomain "example").1.setSearch
        (String.mk (List.replicate 257 'a'))).2 = some "Search list too large." := by
  decide

set_option maxRecDepth 40000 in
theorem claim_C3_witness :
    (ResolvConf.excl ResolvConf.init ∧
      ResolvConf.excl (ResolvConf.applyOp ResolvConf.init (.setDomainOp "example"))) ∧
    ((ResolvConf.init.setDomain "example").2 = none ∧
      (ResolvConf.init.setDomain "example").1.search = none) ∧
    ("a b".data.length ≤ 256 ∧ (ResolvConf.init.setSearch "a b").1.domain = none) ∧
    (256 < (String.mk (List.replicate 257 'a')).data.length ∧
      ResolvConf.init.setSearch (String.mk (List.replicate 257 'a')) =
        (ResolvConf.init, some "Search list too large.")) :=
  ⟨⟨Or.inl rfl, claim_C3.1 _ _ (Or.inl rfl)⟩,
   ⟨by decide, claim_C3.2.2.1 _ _ (by decide)⟩,
   ⟨by decide, claim_C3.2.2.2.1 _ _ (by decide)⟩,
   ⟨by decide, claim_C3.2.2.2.2 _ _ (by decide)⟩⟩

/-- C2 — `fromSystem` (and `fromSystemAsync`, which behaves
identically): when the platform has no canonical config path, or reading
the canonical file fails, the configuration is reset and the factory
default (Google) server set is applied; in every case the result is
`readEnv` of the loaded-or-default state, the default server set is
non-empty, and with `LOCALDOMAIN=test.` set the resulting `domain` is
`test.` even on the default path. No case throws: the embedding is a
total function. -/
theorem claim_C2 :
    (∀ (env : SysEnv) (c : ResolvConf), ResolvConf.getSystem env = none →
      ResolvConf.fromSystem env c =
        ResolvConf.readEnv env ((c.clear.setDefault)).1) ∧
    (∀ (env : SysEnv) (c : ResolvConf) (f : String),
      ResolvConf.getSystem env = some f → env.files f = none →
      ResolvConf.fromSystem env c =
        ResolvConf.readEnv env ((c.clear.setDefault)).1) ∧
    (∀ (env : SysEnv) (c : ResolvConf), ∃ c1,
      ResolvConf.fromSystem env c = ResolvConf.readEnv env c1) ∧
    (∀ c : ResolvConf, ((c.clear.setDefault)).1.getServers ≠ []) ∧
    (∀ (env : SysEnv) (c : ResolvConf),
      ResolvConf.fromSystemAsync env c = ResolvConf.fromSystem env c) ∧
    (∀ (env : SysEnv) (c : ResolvConf),
      env.win32 = true → env.localdomain = some "test." → env.resOptions = none →
      (ResolvConf.fromSystem env c).domain = some "test.") := by
  refine ⟨?_, ?_, ?_, ?_, fun env c => rfl, ?_⟩
  · intro env c h
    rw [ResolvConf.fromSystem, h]
  · intro env c f hg hf
    have hff : ResolvConf.fromFile env c f = none := by
      unfold ResolvConf.fromFile
      rw [hf]
      rfl
    rw [ResolvConf.fromSystem, hg]
    dsimp only
    rw [hff]
  · intro env c
    exact ⟨_, rfl⟩
  · intro c
    show (ResolvConf.init.setDefault).1.getServers ≠ []
    decide
  · intro env c hw hl hr
    rw [ResolvConf.fromSystem]
    rw [show ResolvConf.getSystem env = none by rw [ResolvConf.getSystem, if_pos hw]]
    rw [ResolvConf.readEnv, hl, hr]
    show (ResolvConf.parseDomain _ "test.").domain = some "test."
    rw [ResolvConf.parseDomain, ResolvConf.setDomain, if_neg (by decide)]
    rfl

theorem claim_C2_witness :
    (ResolvConf.getSystem envWinTest = none ∧
      ResolvConf.fromSystem envWinTest ResolvConf.init =
        ResolvConf.readEnv envWinTest ((ResolvConf.init.clear.setDefault)).1) ∧
    (ResolvConf.getSystem envNoFile = some "/etc/resolv.conf" ∧
      envNoFile.files "/etc/resolv.conf" = none ∧
      ResolvConf.fromSystem envNoFile ResolvConf.init =
        ResolvConf.readEnv envNoFile ((ResolvConf.init.clear.setDefault)).1) ∧
    (envWinTest.win32 = true ∧ envWinTest.localdomain = some "test." ∧
      envWinTest.resOptions = none ∧
      (ResolvConf.fromSystem envWinTest ResolvConf.init).domain = some "test.") :=
  ⟨⟨rfl, claim_C2.1 envWinTest ResolvConf.init rfl⟩,
   ⟨rfl, rfl, claim_C2.2.1 envNoFile ResolvConf.init "/etc/resolv.conf" rfl rfl⟩,
   ⟨rfl, rfl, rfl, claim_C2.2.2.2.2.2 envWinTest ResolvConf.init rfl rfl rfl⟩⟩

/-- C8 — the four line-level wrappers delegate to their setters after
trimming and lower-casing and swallow every error, returning the
post-call state; `addServer` errors never mutate the state; and a
resolv.conf text with one malformed nameserver line followed by a valid
one yields exactly the one valid server — parsing is never aborted
(every parse function of the embedding is total). -/
theorem claim_C8 :
    (∀ (c : ResolvConf) (t : String),
      c.parseServer t = (c.addServer ⟨lowerL (trimL t.data)⟩).1) ∧
    (∀ (c : ResolvConf) (t : String),
      c.parseDomain t = (c.setDomain ⟨lowerL (trimL t.data)⟩).1) ∧
    (∀ (c : ResolvConf) (t : String),
      c.parseSearch t = (c.setSearch ⟨lowerL (trimL t.data)⟩).1) ∧
    (∀ (c : ResolvConf) (t : String),
      c.parseSort t = (c.setSort ⟨lowerL (trimL t.data)⟩).1) ∧
    (∀ (c : ResolvConf) (s : String),
      (c.addServer s).1 = c ∨ (c.addServer s).2 = none) ∧
    ((ResolvConf.fromString ResolvConf.init
        "nameserver 999.1.2.3\nnameserver 1.2.3.4\n").getServers = ["1.2.3.4"] ∧
     (ResolvConf.fromString ResolvConf.init
        "nameserver 999.1.2.3\nnameserver 1.2.3.4\n").ns4.length = 1 ∧
     (ResolvConf.fromString ResolvConf.init
        "nameserver 999.1.2.3\nnameserver 1.2.3.4\n").ns6 = []) := by
  refine ⟨fun c t => rfl, fun c t => rfl, fun c t => rfl, fun c t => rfl, ?_,
    by decide, by decide, by decide⟩
  intro c s
  cases hf : fromHostL s.data 53 with
  | none =>
    left
    simp [ResolvConf.addServer, hf]
  | some addr =>
    by_cases h4 : addr.type = 4
    · right
      cases hk : addr.key <;> simp [ResolvConf.addServer, hf, h4, hk]
    · by_cases h6 : addr.type = 6
      · right
        cases hk : addr.key <;> simp [ResolvConf.addServer, hf, h4, h6, hk]
      · left
        simp [ResolvConf.addServer, hf, h4, h6]

/-- C4 — `query` returns `null` exactly when `lookup` finds no entry;
with an entry: a PTR query returns exactly one record targeting
`entry.name` with TTL 300 class IN; an A (resp. AAAA) query returns one
record when the entry's IPv4 (resp. IPv6) address is present, else none;
ANY returns both; every other 16-bit type yields the empty answer list,
not an error. -/
theorem claim_C4 (db : Hosts) (name : String) (ty : Nat) (hty : ty ≤ 65535) :
    ((db.query name ty = none) ↔ db.lookup name = none) ∧
    (∀ e : HostEntry, db.lookup name = some e →
      (ty = types.PTR → db.query name ty =
        some [{ name := name, rclass := classes.IN, ttl := 300, rtype := types.PTR,
                data := .ptr e.name }]) ∧
      (ty = types.A → db.query name ty = some
        (match e.inet4 with
         | some ad => [{ name := name, rclass := classes.IN, ttl := 300,
                         rtype := types.A, data := .a ad }]
         | none => [])) ∧
      (ty = types.AAAA → db.query name ty = some
        (match e.inet6 with
         | some ad => [{ name := name, rclass := classes.IN, ttl := 300,
                         rtype := types.AAAA, data := .aaaa ad }]
         | none => [])) ∧
      (ty = types.ANY → db.query name ty = some
        ((match e.inet4 with
          | some ad => [{ name := name, rclass := classes.IN, ttl := 300,
                          rtype := types.A, data := .a ad }]
          | none => []) ++
         (match e.inet6 with
          | some ad => [{ name := name, rclass := classes.IN, ttl := 300,
                          rtype := types.AAAA, data := .aaaa ad }]
          | none => []))) ∧
      (ty ≠ types.PTR → ty ≠ types.A → ty ≠ types.AAAA → ty ≠ types.ANY →
        db.query name ty = some [])) := by
  constructor
  · cases hl : db.lookup name with
    | none =>
      rw [Hosts.query, hl]
      simp
    | some e =>
      rw [Hosts.query, hl]
      dsimp only
      split
      · simp [hl]
      · simp [hl]
  · intro e hl
    refine ⟨?_, ?_, ?_, ?_, ?_⟩
    · intro h
      subst h
      rw [Hosts.query, hl]
      dsimp only
      rw [if_pos rfl]
    · intro h
      subst h
      rw [Hosts.query, hl]
      dsimp only
      cases h4 : e.inet4 <;> cases h6 : e.inet6 <;> simp +decide [h4, h6]
    · intro h
      subst h
      rw [Hosts.query, hl]
      dsimp only
      cases h4 : e.inet4 <;> cases h6 : e.inet6 <;> simp +decide [h4, h6]
    · intro h
      subst h
      rw [Hosts.query, hl]
      dsimp only
      cases h4 : e.inet4 <;> cases h6 : e.inet6 <;> simp +decide [h4, h6]
    · intro hp ha haaaa hany
      rw [Hosts.query, hl]
      dsimp only
      rw [if_neg hp]
      have h4 : ¬(ty = types.A ∨ ty = types.ANY) := by
        rintro (h | h)
        · exact ha h
        · exact hany h
      have h6 : ¬(ty = types.AAAA ∨ ty = types.ANY) := by
        rintro (h | h)
        · exact haaaa h
        · exact hany h
      simp [h4, h6]

theorem claim_C4_witness :
    (12 : Nat) ≤ 65535 ∧
    Hosts.init.setLocal.lookup "localhost." =
      some { name := some "localhost.", inet4 := some "127.0.0.1",
             inet6 := some "::1", hostname := none } ∧
    Hosts.init.setLocal.query "localhost." 12 =
      some [{ name := "localhost.", rclass := classes.IN, ttl := 300,
              rtype := types.PTR, data := .ptr (some "localhost.") }] :=
  ⟨by decide, by decide,
   ((claim_C4 Hosts.init.setLocal "localhost." 12 (by decide)).2
      { name := some "localhost.", inet4 := some "127.0.0.1",
        inet6 := some "::1", hostname := none } (by decide)).1 rfl⟩

/-- C9 — for a non-empty non-comment hosts line: field 0 is the IP; with
more than two fields the last field is popped as the optional canonical
hostname and every remaining field is a name bound to that IP and
hostname; with at most two fields there is no hostname; a failing
`addHost` never mutates the database, so (the line processor being a
fold of the error-swallowing `addHostSafe`) one invalid name skips only
that name; concretely, on a line with an invalid middle name the other
names are still bound and the popped hostname is not bound as a name. -/
theorem claim_C9 :
    (∀ (db : Hosts) (chunk ip : List Char) (rest : List (List Char)),
      (trimL chunk).head? ≠ some '#' →
      (trimL chunk).head? ≠ some ';' →
      splitWsL (trimL chunk) = ip :: rest →
      trimL chunk ≠ [] →
      (2 ≤ rest.length →
        Hosts.hostsLine db chunk =
          rest.dropLast.foldl
            (fun d n => d.addHostSafe ⟨n⟩ ⟨ip⟩
              ((rest.getLast?).map (fun l => (⟨l⟩ : String)))) db) ∧
      (rest.length ≤ 1 →
        Hosts.hostsLine db chunk =
          rest.foldl (fun d n => d.addHostSafe ⟨n⟩ ⟨ip⟩ none) db)) ∧
    (∀ (db : Hosts) (n i : String) (hn : Option String),
      (Hosts.addHost db n i hn).1 = db ∨ (Hosts.addHost db n i hn).2 = none) ∧
    ((Hosts.fromString Hosts.init
        "1.2.3.4 alpha b!d beta cname\n5.6.7.8 gamma\n").lookup "alpha." =
      some { name := some "alpha.", inet4 := some "1.2.3.4", inet6 := none,
             hostname := some "cname." } ∧
     (Hosts.fromString Hosts.init
        "1.2.3.4 alpha b!d beta cname\n5.6.7.8 gamma\n").lookup "b!d." = none ∧
     (Hosts.fromString Hosts.init
        "1.2.3.4 alpha b!d beta cname\n5.6.7.8 gamma\n").lookup "beta." =
      some { name := some "beta.", inet4 := some "1.2.3.4", inet6 := none,
             hostname := some "cname." } ∧
     (Hosts.fromString Hosts.init
        "1.2.3.4 alpha b!d beta cname\n5.6.7.8 gamma\n").lookup "gamma." =
      some { name := some "gamma.", inet4 := some "5.6.7.8", inet6 := none,
             hostname := none }) := by
  refine ⟨?_, ?_, by decide, by decide, by decide, by decide⟩
  · intro db chunk ip rest hh1 hh2 hsplit hne
    cases htc : trimL chunk with
    | nil => exact absurd htc hne
    | cons h t =>
      rw [htc] at hsplit hh1 hh2
      rw [Hosts.hostsLine, htc]
      dsimp only
      have hcomment : ¬(h = '#' ∨ h = ';') := by
        rintro (rfl | rfl)
        · exact hh1 rfl
        · exact hh2 rfl
      rw [if_neg hcomment, hsplit]
      dsimp only
      constructor
      · intro h2
        have hc : (ip :: rest : List (List Char)).length > 2 := by
          simp only [List.length_cons]
          omega
        simp only [if_pos hc]
      · intro h1
        have hc : ¬((ip :: rest : List (List Char)).length > 2) := by
          simp only [List.length_cons]
          omega
        simp only [if_neg hc]
  · intro db n i hn
    rw [Hosts.addHost.eq_def]
    dsimp only
    repeat' split
    all_goals first | exact Or.inl rfl | exact Or.inr rfl

theorem claim_C9_witness :
    ((trimL "9.9.9.9 one two".data).head? ≠ some '#' ∧
      (trimL "9.9.9.9 one two".data).head? ≠ some ';' ∧
      splitWsL (trimL "9.9.9.9 one two".data) =
        "9.9.9.9".data :: ["one".data, "two".data] ∧
      trimL "9.9.9.9 one two".data ≠ [] ∧
      2 ≤ (["one".data, "two".data] : List (List Char)).length) ∧
    Hosts.hostsLine Hosts.init "9.9.9.9 one two".data =
      (["one".data, "two".data].dropLast).foldl
        (fun d n => d.addHostSafe ⟨n⟩ ⟨"9.9.9.9".data⟩
          ((["one".data, "two".data].getLast?).map (fun l => (⟨l⟩ : String))))
        Hosts.init :=
  ⟨⟨by decide, by decide, by decide, by decide, by decide⟩,
   ((claim_C9.1 Hosts.init "9.9.9.9 one two".data "9.9.9.9".data
      ["one".data, "two".data] (by decide) (by decide) (by decide) (by decide)).1
     (by decide))⟩

/-! ## Heap-model lemmas for clone independence -/

namespace HostsRef

theorem mem_assocSet {β : Type} {m : List (String × β)} {k : String} {v : β} :
    ∀ kv ∈ assocSet m k v, kv ∈ m ∨ kv = (k, v) := by
  induction m with
  | nil =>
    intro kv h
    simp [assocSet] at h
    exact Or.inr h
  | cons kv0 rest ih =>
    intro kv h
    rw [assocSet] at h
    split at h
    · rcases List.mem_cons.1 h with h | h
      · subst h
        rename_i heq
        exact Or.inr (by simp [heq])
      · exact Or.inl (List.mem_cons_of_mem _ h)
    · rcases List.mem_cons.1 h with h | h
      · exact Or.inl (h ▸ List.mem_cons_self _ _)
      · rcases ih kv h with h' | h'
        · exact Or.inl (List.mem_cons_of_mem _ h')
        · exact Or.inr h'

theorem refs_assocSet {m : List (String × Nat)} {k : String} {v : Nat} :
    ∀ r ∈ (Obj.refs { map := assocSet m k v, rev := [] }),
      r ∈ m.map Prod.snd ∨ r = v := by
  intro r hr
  rw [Obj.refs] at hr
  obtain ⟨kv, hkv, rfl⟩ := List.mem_map.1 hr
  rcases mem_assocSet kv hkv with h | h
  · exact Or.inl (List.mem_map_of_mem _ h)
  · exact Or.inr (by rw [h])

theorem assocGet_mem_snd {β : Type} {m : List (String × β)} {k : String} {v : β}
    (h : assocGet m k = some v) : v ∈ m.map Prod.snd :=
  List.mem_map_of_mem _ (assocGet_mem h)

/-- The frame of one `addHost` call: cells outside the object's own
references and below the old heap top are untouched, the heap only
grows, every reference of the new object state is an old one or the old
heap top, and well-formedness is preserved. -/
theorem addHost_frame (st : Store) (A : Obj) (n h : String) (hn : Option String) :
    (∀ i, i ∉ A.refs → i < st.length →
      (addHost st A n h hn).1.get? i = st.get? i) ∧
    st.length ≤ (addHost st A n h hn).1.length ∧
    (∀ r ∈ (addHost st A n h hn).2.1.refs, r ∈ A.refs ∨ r = st.length) ∧
    (WF st A → WF (addHost st A n h hn).1 (addHost st A n h hn).2.1) := by
  rw [addHost.eq_def]
  dsimp only
  split
  · exact ⟨fun i _ _ => rfl, Nat.le_refl _, fun r hr => Or.inl hr, fun hwf => hwf⟩
  · split
    · exact ⟨fun i _ _ => rfl, Nat.le_refl _, fun r hr => Or.inl hr, fun hwf => hwf⟩
    · split
      · exact ⟨fun i _ _ => rfl, Nat.le_refl _, fun r hr => Or.inl hr, fun hwf => hwf⟩
      · split
        · -- existing entry: in-place set at the found reference
          rename_i r0 hget
          have hrmem : r0 ∈ A.refs := by
            rw [Obj.refs]
            exact List.mem_map_of_mem _ (assocGet_mem hget)
          refine ⟨?_, ?_, ?_, ?_⟩
          · intro i hi hlt
            exact List.get?_set_ne _ _ (fun he => hi (he ▸ hrmem))
          · rw [List.length_set]
          · intro r hr
            rcases refs_assocSet r (by rw [Obj.refs] at hr ⊢; exact hr) with h' | h'
            · left
              rw [Obj.refs]
              exact h'
            · left
              rw [h']
              exact hrmem
          · intro hwf r hr
            rw [List.length_set]
            rcases refs_assocSet r (by rw [Obj.refs] at hr ⊢; exact hr) with h' | h'
            · exact hwf r (by rw [Obj.refs]; exact h')
            · rw [h']
              exact hwf _ hrmem
        · -- new entry: fresh allocation at the heap top
          refine ⟨?_, ?_, ?_, ?_⟩
          · intro i hi hlt
            exact List.get?_append hlt
          · rw [List.length_append]
            exact Nat.le_add_right _ _
          · intro r hr
            rcases refs_assocSet r (by rw [Obj.refs] at hr ⊢; exact hr) with h' | h'
            · left
              rw [Obj.refs]
              exact h'
            · right
              exact h'
          · intro hwf r hr
            rw [List.length_append]
            rcases refs_assocSet r (by rw [Obj.refs] at hr ⊢; exact hr) with h' | h'
            · have := hwf r (by rw [Obj.refs]; exact h')
              omega
            · rw [h']
              simp

/-- Lookups only read the object's own maps and its referenced cells. -/
theorem lookup_frame (st st' : Store) (B : Obj)
    (h : ∀ i ∈ B.refs, st'.get? i = st.get? i) (name : String) :
    lookup st' B name = lookup st B name := by
  rw [lookup, lookup]
  split
  · rename_i ptr hp
    cases hm : assocGet B.map ptr with
    | none => rfl
    | some r =>
      exact h r (by rw [Obj.refs]; exact List.mem_map_of_mem _ (assocGet_mem hm))
  · cases hm : assocGet B.map _ with
    | none => rfl
    | some r =>
      exact h r (by rw [Obj.refs]; exact List.mem_map_of_mem _ (assocGet_mem hm))

/-- The frame of a whole sequence of `addHost` calls on one object, as
seen by a second object with disjoint references. -/
theorem muts_frame : ∀ (ms : List (String × String × Option String))
    (st : Store) (A B : Obj),
    WF st A → WF st B → (∀ r ∈ A.refs, r ∉ B.refs) →
    (∀ i ∈ B.refs, (applyMuts st A ms).1.get? i = st.get? i) ∧
    WF (applyMuts st A ms).1 (applyMuts st A ms).2 ∧
    WF (applyMuts st A ms).1 B ∧
    (∀ r ∈ (applyMuts st A ms).2.refs, r ∉ B.refs) ∧
    st.length ≤ (applyMuts st A ms).1.length := by
  intro ms
  induction ms with
  | nil =>
    intro st A B hA hB hdisj
    exact ⟨fun i _ => rfl, hA, hB, hdisj, Nat.le_refl _⟩
  | cons m rest ih =>
    intro st A B hA hB hdisj
    have hstep := addHost_frame st A m.1 m.2.1 m.2.2
    set st1 := (addHost st A m.1 m.2.1 m.2.2).1 with hst1
    set A1 := (addHost st A m.1 m.2.1 m.2.2).2.1 with hA1
    have hA1wf : WF st1 A1 := hstep.2.2.2 hA
    have hB1wf : WF st1 B := fun r hr => Nat.lt_of_lt_of_le (hB r hr) hstep.2.1
    have hdisj1 : ∀ r ∈ A1.refs, r ∉ B.refs := by
      intro r hr hrB
      rcases hstep.2.2.1 r hr with h' | h'
      · exact hdisj r h' hrB
      · exact Nat.lt_irrefl _ (h' ▸ hB r hrB)
    have hrec := ih st1 A1 B hA1wf hB1wf hdisj1
    have happly : applyMuts st A (m :: rest) = applyMuts st1 A1 rest := by
      rw [applyMuts, applyMuts, List.foldl_cons]
    rw [happly]
    refine ⟨?_, hrec.2.1, hrec.2.2.1, hrec.2.2.2.1,
      Nat.le_trans hstep.2.1 hrec.2.2.2.2⟩
    intro i hi
    rw [hrec.1 i hi]
    exact hstep.1 i (fun hiA => hdisj i hiA hi) (hB i hi)

/-- The forward-map copy loop of `inject`: old cells are untouched, the
heap only grows, the rebuilt map binds old keys (accumulator keys
first) and every fresh binding dereferences to a copy of the source
binding's entry, with all fresh references in the newly allocated
range. -/
theorem clone_fold (st : Store) :
    ∀ (l : List (String × Nat)) (s0 : Store) (m0 : List (String × Nat)),
    l.Pairwise (fun a b => a.1 ≠ b.1) →
    (∀ kv ∈ m0, kv.1 ∉ l.map Prod.fst) →
    (∀ kv ∈ m0, kv.2 < s0.length) →
    (∀ i, i < s0.length →
      (l.foldl (injectFoldStep st) (s0, m0)).1.get? i = s0.get? i) ∧
    s0.length ≤ (l.foldl (injectFoldStep st) (s0, m0)).1.length ∧
    (∀ k, (assocGet (l.foldl (injectFoldStep st) (s0, m0)).2 k).bind
        (fun r => (l.foldl (injectFoldStep st) (s0, m0)).1.get? r) =
      match assocGet m0 k with
      | some r => s0.get? r
      | none => (assocGet l k).map (fun r => (st.get? r).getD {})) ∧
    (∀ kv ∈ (l.foldl (injectFoldStep st) (s0, m0)).2,
      kv ∈ m0 ∨ (s0.length ≤ kv.2 ∧ kv.2 < (l.foldl (injectFoldStep st) (s0, m0)).1.length)) := by
  intro l
  induction l with
  | nil =>
    intro s0 m0 hnd hdisj hbound
    refine ⟨fun i _ => rfl, Nat.le_refl _, ?_, fun kv h => Or.inl h⟩
    intro k
    simp only [List.foldl_nil]
    cases hk : assocGet m0 k with
    | none => rfl
    | some r => rfl
  | cons kv0 rest ih =>
    intro s0 m0 hnd hdisj hbound
    obtain ⟨k0, r0⟩ := kv0
    have hk0 : ∀ kv ∈ m0, kv.1 ≠ k0 := by
      intro kv hkv
      have := hdisj kv hkv
      simp only [List.map_cons, List.mem_cons, not_or] at this
      exact this.1
    have hstep : List.foldl (injectFoldStep st) (s0, m0) ((k0, r0) :: rest) =
        List.foldl (injectFoldStep st)
          (s0 ++ [(st.get? r0).getD {}], m0 ++ [(k0, s0.length)]) rest := by
      rw [List.foldl_cons, injectFoldStep]
      dsimp only
      rw [assocSet_append hk0]
    rw [hstep]
    have hrec := ih (s0 ++ [(st.get? r0).getD {}]) (m0 ++ [(k0, s0.length)])
      (List.Pairwise.of_cons hnd)
      (by
        intro kv hkv
        rcases List.mem_append.1 hkv with h | h
        · have := hdisj kv h
          simp only [List.map_cons, List.mem_cons, not_or] at this
          exact this.2
        · simp only [List.mem_singleton] at h
          subst h
          intro hmem
          obtain ⟨kv', hkv', heq⟩ := List.mem_map.1 hmem
          exact (List.pairwise_cons.1 hnd).1 kv' hkv' heq.symm)
      (by
        intro kv hkv
        rw [List.length_append, List.length_singleton]
        rcases List.mem_append.1 hkv with h | h
        · exact Nat.lt_succ_of_lt (hbound kv h)
        · simp only [List.mem_singleton] at h
          subst h
          exact Nat.lt_succ_self _)
    obtain ⟨hg1, hg2, hg3, hg4⟩ := hrec
    have hs0len : s0.length < (s0 ++ [(st.get? r0).getD {}]).length := by
      rw [List.length_append, List.length_singleton]
      exact Nat.lt_succ_self _
    refine ⟨?_, ?_, ?_, ?_⟩
    · intro i hi
      rw [hg1 i (Nat.lt_trans hi hs0len)]
      exact List.get?_append hi
    · exact Nat.le_trans (Nat.le_of_lt hs0len) hg2
    · intro k
      rw [hg3 k]
      rw [assocGet_append]
      cases hk : assocGet m0 k with
      | some r =>
        dsimp only
        rw [List.get?_append (hbound _ (assocGet_mem hk))]
      | none =>
        dsimp only
        rw [assocGet]
        by_cases hkk : k0 = k
        · rw [if_pos hkk]
          dsimp only
          rw [List.get?_concat_length]
          rw [show assocGet ((k0, r0) :: rest) k = some r0 by
            rw [assocGet, if_pos hkk]]
          rfl
        · rw [if_neg hkk]
          rw [show assocGet ((k0, r0) :: rest) k = assocGet rest k by
            rw [assocGet, if_neg hkk]]
          rfl
    · intro kv hkv
      rcases hg4 kv hkv with h | h
      · rcases List.mem_append.1 h with h' | h'
        · exact Or.inl h'
        · simp only [List.mem_singleton] at h'
          subst h'
          exact Or.inr ⟨Nat.le_refl _, Nat.lt_of_lt_of_le hs0len hg2⟩
      · exact Or.inr ⟨Nat.le_trans (Nat.le_of_lt hs0len) h.1, h.2⟩


/-- `clone`: old heap cells are untouched, the clone is well-formed,
every reference it holds is freshly allocated (at or above the old heap
top, hence disjoint from any old object's references), and the clone's
lookups agree with the source's. -/
theorem clone_spec (st : Store) (h : Obj)
    (hwf : WF st h)
    (hndm : h.map.Pairwise (fun a b => a.1 ≠ b.1))
    (hndr : h.rev.Pairwise (fun a b => a.1 ≠ b.1)) :
    (∀ i, i < st.length → (clone st h).1.get? i = st.get? i) ∧
    st.length ≤ (clone st h).1.length ∧
    WF (clone st h).1 (clone st h).2 ∧
    (∀ r ∈ (clone st h).2.refs, st.length ≤ r) ∧
    (∀ name, lookup (clone st h).1 (clone st h).2 name = lookup st h name) := by
  have hfold := clone_fold st h.map st [] hndm (by simp) (by simp)
  obtain ⟨hf1, hf2, hf3, hf4⟩ := hfold
  have hrev2 : (clone st h).2.rev = h.rev := by
    show h.rev.foldl (fun r kv => assocSet r kv.1 kv.2) [] = h.rev
    have := assoc_rebuild h.rev [] hndr (by simp)
    simpa using this
  have hget : ∀ k, (assocGet (clone st h).2.map k).bind
      (fun r => (clone st h).1.get? r) =
      (assocGet h.map k).bind (fun r => st.get? r) := by
    intro k
    have h3 : (assocGet (clone st h).2.map k).bind
        (fun r => (clone st h).1.get? r) =
        (assocGet h.map k).map (fun r => (st.get? r).getD {}) := hf3 k
    rw [h3]
    cases hk : assocGet h.map k with
    | none => rfl
    | some r =>
      have hr : r < st.length := hwf r (by
        rw [Obj.refs]
        exact List.mem_map_of_mem _ (assocGet_mem hk))
      obtain ⟨v, hv⟩ : ∃ v, st.get? r = some v := by
        rw [List.get?_eq_get hr]
        exact ⟨_, rfl⟩
      show some ((st.get? r).getD {}) = st.get? r
      rw [hv]
      rfl
  refine ⟨fun i hi => hf1 i hi, hf2, ?_, ?_, ?_⟩
  · intro r hr
    rw [Obj.refs] at hr
    obtain ⟨kv, hkv, rfl⟩ := List.mem_map.1 hr
    rcases hf4 kv hkv with h' | h'
    · simp at h'
    · exact h'.2
  · intro r hr
    rw [Obj.refs] at hr
    obtain ⟨kv, hkv, rfl⟩ := List.mem_map.1 hr
    rcases hf4 kv hkv with h' | h'
    · simp at h'
    · exact h'.1
  · intro name
    rw [lookup, lookup, hrev2]
    split
    · rename_i ptr hp
      exact hget ptr
    · exact hget _

end HostsRef

namespace ResolvRef

/-- The `setSearch` loop writes the store only at its own array. -/
theorem searchLoop_frame : ∀ (ns : List (List Char)) (sst : SStore) (ref : Nat),
    (searchLoop ns sst ref).1.length = sst.length ∧
    (∀ i, i ≠ ref → (searchLoop ns sst ref).1.get? i = sst.get? i) := by
  intro ns
  induction ns with
  | nil => exact fun sst ref => ⟨rfl, fun i _ => rfl⟩
  | cons n rest ih =>
    intro sst ref
    rw [searchLoop]
    split
    · exact ih sst ref
    · split
      · exact ⟨rfl, fun i _ => rfl⟩
      · obtain ⟨hl, hg⟩ := ih (sst.set ref ((sst.get? ref).getD [] ++ [(⟨fqdnL n⟩ : String)])) ref
        refine ⟨hl.trans (List.length_set ..), fun i hi => ?_⟩
        rw [hg i hi]
        exact List.get?_set_ne _ _ (fun he => hi he.symm)

/-- Public operations write the store only at freshly allocated arrays:
old cells are untouched and the store only grows. -/
theorem applyOp_frame (op : Op) (sst : SStore) (c : Obj) :
    (∀ i, i < sst.length → (applyOp sst c op).1.get? i = sst.get? i) ∧
    sst.length ≤ (applyOp sst c op).1.length := by
  cases op with
  | setDomainOp s => exact ⟨fun i _ => rfl, Nat.le_refl _⟩
  | addServerOp s => exact ⟨fun i _ => rfl, Nat.le_refl _⟩
  | clearOp => exact ⟨fun i _ => rfl, Nat.le_refl _⟩
  | setSearchOp s =>
    show (∀ i, i < sst.length → ((setSearch sst c s).1).1.get? i = sst.get? i) ∧
      sst.length ≤ ((setSearch sst c s).1).1.length
    rw [setSearch]
    split
    · exact ⟨fun i _ => rfl, Nat.le_refl _⟩
    · dsimp only
      obtain ⟨hl, hg⟩ := searchLoop_frame (splitWsL s.data)
        (sst ++ [([] : List String)]) sst.length
      constructor
      · intro i hi
        rw [hg i (Nat.ne_of_lt hi)]
        exact List.get?_append hi
      · rw [hl, List.length_append]
        exact Nat.le_add_right _ _

/-- The frame of a whole public-operation sequence. -/
theorem applyOps_frame : ∀ (ops : List Op) (sst : SStore) (c : Obj),
    (∀ i, i < sst.length → (applyOps sst c ops).1.get? i = sst.get? i) ∧
    sst.length ≤ (applyOps sst c ops).1.length := by
  intro ops
  induction ops with
  | nil => exact fun sst c => ⟨fun i _ => rfl, Nat.le_refl _⟩
  | cons op rest ih =>
    intro sst c
    have hstep := applyOp_frame op sst c
    have happly : applyOps sst c (op :: rest) =
        applyOps (applyOp sst c op).1 (applyOp sst c op).2 rest := by
      rw [applyOps, applyOps, List.foldl_cons]
    rw [happly]
    obtain ⟨hg, hl⟩ := ih (applyOp sst c op).1 (applyOp sst c op).2
    constructor
    · intro i hi
      rw [hg i (Nat.lt_of_lt_of_le hi hstep.2), hstep.1 i hi]
    · exact Nat.le_trans hstep.2 hl

/-- The observable `search` list of any object holding a valid reference
is unchanged by any public-operation sequence applied to any (other or
same) object: public operations never write through an old reference. -/
theorem searchVal_frame (sst : SStore) (x : Obj) (ops : List Op) (orig : Obj)
    (hwf : WF sst orig) :
    searchVal (applyOps sst x ops).1 orig = searchVal sst orig := by
  rw [searchVal, searchVal]
  cases hs : orig.search with
  | none => rfl
  | some r =>
    rw [Option.map_some', Option.map_some',
      (applyOps_frame ops sst x).1 r (hwf r hs)]

/-- Pushing onto the *clone's* `search` array in place appends to the
*original's* observable `search` list: the two objects hold the same
array reference. -/
theorem pushSearch_shared (sst : SStore) (c : Obj) (r : Nat) (v : String)
    (hs : c.search = some r) (hlt : r < sst.length) :
    searchVal (pushSearch sst (clone c) v) c
      = (searchVal sst c).map (fun a => a ++ [v]) := by
  have hcs : (clone c).search = some r := hs
  rw [pushSearch, hcs]
  rw [searchVal, searchVal, hs]
  simp only [Option.map_some']
  rw [List.get?_set_eq_of_lt _ hlt]
  cases hg : sst.get? r with
  | none => exact absurd hg (by rw [List.get?_eq_get hlt]; simp)
  | some a => simp [hg]

end ResolvRef

/-- C5 — amended. `HostsDB.clone` is a fully deep, independent copy:
under the heap-explicit embedding, the clone's lookups agree with the
original's and any sequence of `addHost` mutations on either side
leaves the other side's lookups unchanged (resting on `inject`'s
per-entry `value.clone()` allocations). `ResolverConfig.clone`
reproduces every observable field, and its `ns4`/`ns6`/`keys`/`sortlist`
containers are fresh; but `inject` assigns `search` by reference, so the
clone and original share the search array: mutations through the public
API still never affect the other object (the only methods that write a
search array, via `setSearch`, first install a freshly allocated one),
while a direct in-place push onto the cloned `search` collection appends
to the original's observable search list. The `Nodup` hypotheses state
that the JS `Map`s hold each key once. -/
theorem claim_C5 :
    (∀ c : ResolvConf, (c.keys.map Prod.fst).Nodup → c.clone = c) ∧
    (∀ h : Hosts, (h.map.map Prod.fst).Nodup → (h.rev.map Prod.fst).Nodup →
      h.clone = h) ∧
    (∀ (st : HostsRef.Store) (h : HostsRef.Obj),
      HostsRef.WF st h →
      (h.map.map Prod.fst).Nodup → (h.rev.map Prod.fst).Nodup →
      ∀ (ms : List (String × String × Option String)) (name : String),
        HostsRef.lookup (HostsRef.clone st h).1 (HostsRef.clone st h).2 name
          = HostsRef.lookup st h name ∧
        HostsRef.lookup
          (HostsRef.applyMuts (HostsRef.clone st h).1 (HostsRef.clone st h).2 ms).1
          h name = HostsRef.lookup st h name ∧
        HostsRef.lookup
          (HostsRef.applyMuts (HostsRef.clone st h).1 h ms).1
          (HostsRef.clone st h).2 name
          = HostsRef.lookup (HostsRef.clone st h).1 (HostsRef.clone st h).2 name) ∧
    (∀ c : ResolvRef.Obj, (ResolvRef.clone c).search = c.search) ∧
    (∀ (sst : ResolvRef.SStore) (c : ResolvRef.Obj), ResolvRef.WF sst c →
      ∀ ops : List ResolvRef.Op,
        ResolvRef.searchVal
            (ResolvRef.applyOps sst (ResolvRef.clone c) ops).1 c
          = ResolvRef.searchVal sst c ∧
        ResolvRef.searchVal (ResolvRef.applyOps sst c ops).1 (ResolvRef.clone c)
          = ResolvRef.searchVal sst (ResolvRef.clone c)) ∧
    (∀ (sst : ResolvRef.SStore) (c : ResolvRef.Obj) (r : Nat) (v : String),
      c.search = some r → r < sst.length →
      ResolvRef.searchVal (ResolvRef.pushSearch sst (ResolvRef.clone c) v) c
        = (ResolvRef.searchVal sst c).map (fun a => a ++ [v])) := by
  refine ⟨?_, ?_, ?_, fun c => rfl, ?_, ResolvRef.pushSearch_shared⟩
  · intro c hnd
    have hp : c.keys.Pairwise (fun a b => a.1 ≠ b.1) := List.pairwise_map.mp hnd
    have hk : List.foldl (fun m kv => assocSet m kv.1 kv.2) [] c.keys = c.keys := by
      simpa using assoc_rebuild c.keys [] hp (by simp)
    show ResolvConf.inject {} c = c
    unfold ResolvConf.inject
    rw [hk]
  · intro h hndm hndr
    have hpm : h.map.Pairwise (fun a b => a.1 ≠ b.1) := List.pairwise_map.mp hndm
    have hpr : h.rev.Pairwise (fun a b => a.1 ≠ b.1) := List.pairwise_map.mp hndr
    have hm : List.foldl (fun m kv => assocSet m kv.1 kv.2.clone) [] h.map = h.map := by
      have h0 : (fun (m : List (String × HostEntry)) (kv : String × HostEntry) =>
          assocSet m kv.1 kv.2.clone)
          = (fun m kv => assocSet m kv.1 kv.2) := rfl
      rw [h0]
      simpa using assoc_rebuild h.map [] hpm (by simp)
    have hr : List.foldl (fun r kv => assocSet r kv.1 kv.2) [] h.rev = h.rev := by
      simpa using assoc_rebuild h.rev [] hpr (by simp)
    show Hosts.inject {} h = h
    unfold Hosts.inject
    dsimp only
    rw [show (Hosts.clearHosts {}).map = [] from rfl,
      show (Hosts.clearHosts {}).rev = [] from rfl]
    rw [hm, hr]
  · intro st h hwf hndm hndr ms name
    have hpm : h.map.Pairwise (fun a b => a.1 ≠ b.1) := List.pairwise_map.mp hndm
    have hpr : h.rev.Pairwise (fun a b => a.1 ≠ b.1) := List.pairwise_map.mp hndr
    obtain ⟨hc1, hc2, hc3, hc4, hc5⟩ := HostsRef.clone_spec st h hwf hpm hpr
    have hwf1 : HostsRef.WF (HostsRef.clone st h).1 h :=
      fun r hr => Nat.lt_of_lt_of_le (hwf r hr) hc2
    have hdisj : ∀ r ∈ (HostsRef.clone st h).2.refs, r ∉ h.refs := by
      intro r hr hrh
      exact Nat.lt_irrefl _ (Nat.lt_of_lt_of_le (hwf r hrh) (hc4 r hr))
    have hdisj' : ∀ r ∈ h.refs, r ∉ (HostsRef.clone st h).2.refs := by
      intro r hr hrc
      exact Nat.lt_irrefl _ (Nat.lt_of_lt_of_le (hwf r hr) (hc4 r hrc))
    refine ⟨hc5 name, ?_, ?_⟩
    · have hm := HostsRef.muts_frame ms (HostsRef.clone st h).1
        (HostsRef.clone st h).2 h hc3 hwf1 hdisj
      rw [HostsRef.lookup_frame (HostsRef.clone st h).1 _ h hm.1 name]
      exact HostsRef.lookup_frame st (HostsRef.clone st h).1 h
        (fun i hi => hc1 i (hwf i hi)) name
    · have hm := HostsRef.muts_frame ms (HostsRef.clone st h).1 h
        (HostsRef.clone st h).2 hwf1 hc3 hdisj'
      exact HostsRef.lookup_frame (HostsRef.clone st h).1 _
        (HostsRef.clone st h).2 hm.1 name
  · intro sst c hwf ops
    have hwfc : ResolvRef.WF sst (ResolvRef.clone c) := fun r hr => hwf r hr
    exact ⟨ResolvRef.searchVal_frame sst (ResolvRef.clone c) ops c hwf,
      ResolvRef.searchVal_frame sst c ops (ResolvRef.clone c) hwfc⟩

/-- C5 — counterexample to the claim as stated. `inject` copies the
`search` field by reference (`this.search = obj.search`), so after
cloning a configuration whose search list is `["a.", "b."]`, pushing
`"evil"` directly onto the *clone's* `search` array — a direct mutation
of a cloned collection, which the claim covers — changes the
*original's* observable `search` list to `["a.", "b.", "evil"]`. -/
theorem claim_C5_cex :
    ResolvRef.searchVal (ResolvRef.setSearch [] {} "a b").1.1
        (ResolvRef.setSearch [] {} "a b").1.2 = some ["a.", "b."] ∧
    ResolvRef.searchVal
        (ResolvRef.pushSearch (ResolvRef.setSearch [] {} "a b").1.1
          (ResolvRef.clone (ResolvRef.setSearch [] {} "a b").1.2) "evil")
        (ResolvRef.setSearch [] {} "a b").1.2
      = some ["a.", "b.", "evil"] ∧
    some ["a.", "b.", "evil"] ≠ (some ["a.", "b."] : Option (List String)) := by
  decide

theorem claim_C5_witness :
    (((ResolvConf.init.addServer "sk@8.8.8.8").1.keys.map Prod.fst).Nodup ∧
      (ResolvConf.init.addServer "sk@8.8.8.8").1.clone =
        (ResolvConf.init.addServer "sk@8.8.8.8").1) ∧
    ((Hosts.init.setLocal.map.map Prod.fst).Nodup ∧
      (Hosts.init.setLocal.rev.map Prod.fst).Nodup ∧
      Hosts.init.setLocal.clone = Hosts.init.setLocal) ∧
    (HostsRef.WF
        [{ name := some "localhost.", inet4 := some "127.0.0.1",
           inet6 := none, hostname := none }]
        { map := [("localhost.", 0)],
          rev := [("1.0.0.127.in-addr.arpa.", "localhost.")] } ∧
      ((([("localhost.", 0)] : List (String × Nat)).map Prod.fst).Nodup) ∧
      ((([("1.0.0.127.in-addr.arpa.", "localhost.")] :
          List (String × String)).map Prod.fst).Nodup) ∧
      HostsRef.lookup
        (HostsRef.applyMuts
          (HostsRef.clone
            [{ name := some "localhost.", inet4 := some "127.0.0.1",
               inet6 := none, hostname := none }]
            { map := [("localhost.", 0)],
              rev := [("1.0.0.127.in-addr.arpa.", "localhost.")] }).1
          (HostsRef.clone
            [{ name := some "localhost.", inet4 := some "127.0.0.1",
               inet6 := none, hostname := none }]
            { map := [("localhost.", 0)],
              rev := [("1.0.0.127.in-addr.arpa.", "localhost.")] }).2
          [("localhost", "::1", none)]).1
        { map := [("localhost.", 0)],
          rev := [("1.0.0.127.in-addr.arpa.", "localhost.")] }
        "localhost."
        = HostsRef.lookup
            [{ name := some "localhost.", inet4 := some "127.0.0.1",
               inet6 := none, hostname := none }]
            { map := [("localhost.", 0)],
              rev := [("1.0.0.127.in-addr.arpa.", "localhost.")] }
            "localhost.") ∧
    (ResolvRef.WF [["a."]] ({ search := some 0 } : ResolvRef.Obj) ∧
      ResolvRef.searchVal
          (ResolvRef.applyOps [["a."]]
            (ResolvRef.clone ({ search := some 0 } : ResolvRef.Obj))
            [ResolvRef.Op.setSearchOp "x y"]).1
          ({ search := some 0 } : ResolvRef.Obj)
        = ResolvRef.searchVal [["a."]] ({ search := some 0 } : ResolvRef.Obj)) ∧
    (({ search := some 0 } : ResolvRef.Obj).search = some 0 ∧
      (0 : Nat) < ([["a."]] : ResolvRef.SStore).length ∧
      ResolvRef.searchVal
          (ResolvRef.pushSearch [["a."]]
            (ResolvRef.clone ({ search := some 0 } : ResolvRef.Obj)) "v")
          ({ search := some 0 } : ResolvRef.Obj)
        = (ResolvRef.searchVal [["a."]]
            ({ search := some 0 } : ResolvRef.Obj)).map (fun a => a ++ ["v"])) := by
  refine ⟨⟨by decide, claim_C5.1 _ (by decide)⟩,
    ⟨by decide, by decide, claim_C5.2.1 _ (by decide) (by decide)⟩,
    ⟨by decide, by decide, by decide, ?_⟩, ⟨by decide, ?_⟩,
    ⟨by decide, by decide, ?_⟩⟩
  · exact (claim_C5.2.2.1 _ _ (by decide) (by decide) (by decide)
      [("localhost", "::1", none)] "localhost.").2.1
  · exact (claim_C5.2.2.2.2.1 _ _ (by decide) [ResolvRef.Op.setSearchOp "x y"]).1
  · exact claim_C5.2.2.2.2.2 _ _ 0 "v" (by decide) (by decide)

end Bns
